import Mathlib

/-!
# Verification of the doc-drift-detector core

A shallow embedding of the drift-comparison engine of the repository
(`src/comparator.py`), of the error path of the structural Python code
extractor (`src/parser.py`), and of the Markdown function-heading pass of the
documentation extractor (`src/doc_parser.py`), together with proofs of the
behavioural properties stated in the specification.

Python `dict`s are modelled as insertion-ordered association lists with
overwrite-in-place semantics; Python `set`s of strings as duplicate-free
lists; Python string primitives (`startswith`, `endswith`, `in`, `lower`,
`strip`, `split`) as character-list functions.
-/

namespace DriftDetector

/-! ## Python string primitives -/

/-- Is `p` a (contiguous) leading segment of `s`?  Backs `str.startswith`. -/
def leadsList : List Char → List Char → Bool
  | [], _ => true
  | _ :: _, [] => false
  | a :: as, b :: bs => a == b && leadsList as bs

/-- Does `needle` occur contiguously inside `hay`?  Backs Python's `in`. -/
def hasSubList (needle : List Char) : List Char → Bool
  | [] => leadsList needle []
  | c :: rest => leadsList needle (c :: rest) || hasSubList needle rest

/-- Python `s.startswith(p)`. -/
def pyStartsWith (s p : String) : Bool := leadsList p.data s.data

/-- Python `s.endswith(p)`. -/
def pyEndsWith (s p : String) : Bool := leadsList p.data.reverse s.data.reverse

/-- Python `needle in hay` (substring containment). -/
def pyIn (needle hay : String) : Bool := hasSubList needle.data hay.data

/-- Python `s.lower()` (ASCII case folding, as used by the repository). -/
def pyLower (s : String) : String := String.mk (s.data.map Char.toLower)

/-- Python `str.strip` whitespace class (ASCII). -/
def pySpace (c : Char) : Bool :=
  c == ' ' || c == '\t' || c == '\n' || c == '\r' || c == '\x0c' || c == '\x0b'

/-- Python `s.strip()`. -/
def pyStrip (s : String) : String :=
  String.mk (((s.data.dropWhile pySpace).reverse.dropWhile pySpace).reverse)

/-- Everything after the last `.` of the list (the whole list if no dot):
`name.split('.')[-1]`. -/
def afterLastDotList : List Char → List Char
  | [] => []
  | c :: rest =>
    if (c :: rest).any (· == '.') then
      if c == '.' then afterLastDotList rest
      else afterLastDotList rest
    else c :: rest

/-- Python `name.split('.')[-1]`. -/
def afterLastDot (s : String) : String :=
  String.mk (afterLastDotList s.data)

/-- Python `'.' in name`. -/
def hasDot (s : String) : Bool := s.data.any (· == '.')

/-- Python `s[:-1]` (drop the final character). -/
def pyDropLast (s : String) : String := String.mk s.data.dropLast

/-- Python `s[1:]` (drop the first character). -/
def pyDropFirst (s : String) : String := String.mk s.data.tail

/-- Python truthiness of an optional string: `not x` is true for `None`
and for the empty string. -/
def optStrFalsy : Option String → Bool
  | none => true
  | some s => s == ""

/-! ## Ordered dictionaries and sets

A Python `dict` preserves insertion order; assigning to an existing key
replaces the value in place.  We model it as a `List (String × α)` whose
keys are pairwise distinct (which `dictInsert` preserves starting from
`[]`), so `len(d)` is just the list length. -/

abbrev Dict (α : Type) : Type := List (String × α)

def dictEmpty {α : Type} : Dict α := []

/-- Assignment `d[k] = v`. -/
def dictInsert {α : Type} : Dict α → String → α → Dict α
  | [], k, v => [(k, v)]
  | (k0, v0) :: rest, k, v =>
    if k0 == k then (k, v) :: rest else (k0, v0) :: dictInsert rest k v

/-- Lookup `d.get(k)` / `d[k]`. -/
def dictLookup {α : Type} : Dict α → String → Option α
  | [], _ => none
  | (k0, v0) :: rest, k => if k0 == k then some v0 else dictLookup rest k

/-- Test `k in d`. -/
def dictContains {α : Type} (d : Dict α) (k : String) : Bool :=
  (dictLookup d k).isSome

/-- Size `len(d)` (keys are distinct by construction). -/
def dictLen {α : Type} (d : Dict α) : Nat := d.length

def dictKeys {α : Type} (d : Dict α) : List String := d.map Prod.fst

/-- Operation `s.add(x)` on a Python set of strings, modelled as a duplicate-free
list (insertion order retained, irrelevant to the claims). -/
def setAdd (s : List String) (x : String) : List String :=
  if x ∈ s then s else x :: s

/-! ## Data model (`src/parser.py`, `src/doc_parser.py`)

Value records as in the repository.  Free-form human-text fields of
`DriftIssue` (`message`, `details`, `suggestion`) are not modelled: their
contents are produced by Python f-string and `set` formatting and no claim
concerns them. -/

structure Parameter where
  name : String
  type_hint : Option String := none
  default : Option String := none
deriving DecidableEq

structure FunctionSignature where
  name : String
  filepath : String
  line_number : Nat
  parameters : List Parameter := []
  return_type : Option String := none
  docstring : Option String := none
  is_async : Bool := false
  is_method : Bool := false
  class_name : Option String := none
  decorators : List String := []
deriving DecidableEq

/-- Property `FunctionSignature.full_name` of the source. -/
def FunctionSignature.full_name (f : FunctionSignature) : String :=
  match f.class_name with
  | some c => c ++ "." ++ f.name
  | none => f.name

structure ClassSignature where
  name : String
  filepath : String
  line_number : Nat
  bases : List String := []
  docstring : Option String := none
  methods : List FunctionSignature := []
  decorators : List String := []
deriving DecidableEq

structure ParseResult where
  filepath : String
  language : String
  functions : List FunctionSignature := []
  classes : List ClassSignature := []
  exports : List String := []
  errors : List String := []
deriving DecidableEq

/-- A parameter record of a documented item (`{'name':…, 'type':…,
'description':…}`); the comparator reads only `name`. -/
structure DocParam where
  name : String
  type : String := ""
  description : String := ""
deriving DecidableEq

structure DocumentedItem where
  name : String
  filepath : String
  line_number : Nat
  doc_type : String
  description : Option String := none
  parameters : List DocParam := []
  return_type : Option String := none
  examples : List String := []
  deprecated : Bool := false
  since_version : Option String := none
deriving DecidableEq

inductive DocFormat where
  | markdown
  | rst
  | unknown
deriving DecidableEq

structure DocParseResult where
  filepath : String
  format : DocFormat
  items : List DocumentedItem := []
  sections : List String := []
  errors : List String := []
deriving DecidableEq

/-! ## Comparator data model (`src/comparator.py`) -/

inductive DriftSeverity where
  | info
  | warning
  | critical
deriving DecidableEq

inductive DriftType where
  | undocumented_function
  | undocumented_class
  | missing_from_code
  | signature_mismatch
  | parameter_mismatch
  | return_type_mismatch
  | deprecated_still_documented
  | missing_deprecation_notice
  | docstring_missing
  | stale_example
deriving DecidableEq

structure DriftIssue where
  drift_type : DriftType
  severity : DriftSeverity
  item_name : String := ""
  code_location : Option String := none
  code_line : Option Nat := none
  doc_location : Option String := none
  doc_line : Option Nat := none
deriving DecidableEq

structure ComparisonStats where
  total_functions : Nat
  total_classes : Nat
  total_documented : Nat
  matched : Nat
  undocumented : Int
deriving DecidableEq

structure ComparisonResult where
  issues : List DriftIssue
  stats : ComparisonStats
deriving DecidableEq

/-- Configuration of `Comparator.__init__`, with the constructor's defaults. -/
structure ComparatorConfig where
  ignore_patterns : List String :=
    ["__init__", "__str__", "__repr__", "__eq__", "__hash__", "_*"]
  require_docstrings : Bool := true
  check_parameters : Bool := true
  check_return_types : Bool := true

/-! ## Comparator operations (`src/comparator.py`) -/

/-- Source `Comparator._index_functions`, inner loop over `result.functions`:
every function is keyed by `full_name`; those carrying a `class_name`
are additionally keyed by their bare `name`. -/
def insertFunctionEntries (idx : Dict FunctionSignature) :
    List FunctionSignature → Dict FunctionSignature
  | [] => idx
  | f :: rest =>
    let idx1 := dictInsert idx f.full_name f
    let idx2 := match f.class_name with
      | some _ => dictInsert idx1 f.name f
      | none => idx1
    insertFunctionEntries idx2 rest

/-- Source `Comparator._index_functions`, inner loop over one class's methods:
each method is keyed by `full_name` only. -/
def insertMethodEntries (idx : Dict FunctionSignature) :
    List FunctionSignature → Dict FunctionSignature
  | [] => idx
  | m :: rest => insertMethodEntries (dictInsert idx m.full_name m) rest

/-- Source `Comparator._index_functions`, loop over `result.classes`. -/
def insertClassMethodEntries (idx : Dict FunctionSignature) :
    List ClassSignature → Dict FunctionSignature
  | [] => idx
  | c :: rest => insertClassMethodEntries (insertMethodEntries idx c.methods) rest

def index_functions_aux (idx : Dict FunctionSignature) :
    List ParseResult → Dict FunctionSignature
  | [] => idx
  | r :: rest =>
    index_functions_aux
      (insertClassMethodEntries (insertFunctionEntries idx r.functions) r.classes) rest

/-- Source `Comparator._index_functions`. -/
def index_functions (results : List ParseResult) : Dict FunctionSignature :=
  index_functions_aux [] results

def index_classes_aux (idx : Dict ClassSignature) :
    List ParseResult → Dict ClassSignature
  | [] => idx
  | r :: rest =>
    index_classes_aux
      (r.classes.foldl (fun d c => dictInsert d c.name c) idx) rest

/-- Source `Comparator._index_classes`. -/
def index_classes (results : List ParseResult) : Dict ClassSignature :=
  index_classes_aux [] results

def index_doc_items_aux (idx : Dict DocumentedItem) :
    List DocParseResult → Dict DocumentedItem
  | [] => idx
  | r :: rest =>
    index_doc_items_aux
      (r.items.foldl (fun d it => dictInsert d it.name it) idx) rest

/-- Source `Comparator._index_doc_items`. -/
def index_doc_items (results : List DocParseResult) : Dict DocumentedItem :=
  index_doc_items_aux [] results

/-- Source `Comparator._find_doc_item`: exact key match, then (when the name is
dotted) exact match on the part after the last dot, then a case-insensitive
scan over the doc index in insertion order. -/
def find_doc_item (doc_items : Dict DocumentedItem) (name : String) :
    Option DocumentedItem :=
  match dictLookup doc_items name with
  | some item => some item
  | none =>
    match (if hasDot name then dictLookup doc_items (afterLastDot name) else none) with
    | some item => some item
    | none =>
      doc_items.findSome? (fun kv =>
        if pyLower kv.1 == pyLower name then some kv.2 else none)

/-- Source `Comparator._should_ignore`, per-pattern test (`if`/`elif` chain of the
source: a trailing `*` is checked first, then a leading `*`, then exact
equality). -/
def ignore_pattern_matches (pattern name : String) : Bool :=
  if pyEndsWith pattern "*" then pyStartsWith name (pyDropLast pattern)
  else if pyStartsWith pattern "*" then pyEndsWith name (pyDropFirst pattern)
  else name == pattern

/-- Source `Comparator._should_ignore`. -/
def should_ignore (patterns : List String) (name : String) : Bool :=
  patterns.any (fun p => ignore_pattern_matches p name)

/-- Source `Comparator._get_severity_for_undocumented`. -/
def get_severity_for_undocumented (func : FunctionSignature) : DriftSeverity :=
  if !(pyStartsWith func.name "_") then
    if func.decorators.any (fun d => pyIn "api" (pyLower d) || pyIn "public" (pyLower d))
    then DriftSeverity.critical
    else DriftSeverity.warning
  else DriftSeverity.info

/-- Source `Comparator._is_external_reference`. -/
def is_external_reference (doc_item : DocumentedItem) : Bool :=
  if doc_item.doc_type == "api_endpoint" then true
  else
    match doc_item.description with
    | none => false
    | some desc =>
      if desc == "" then false
      else ["external", "third-party", "library", "package"].any
        (fun hint => pyIn hint (pyLower desc))

/-- Source `Comparator._check_function_drift`: parameter symmetric-difference
issues (WARNING for code-only names, CRITICAL for doc-only names), then
the missing-deprecation check. -/
def check_function_drift (cfg : ComparatorConfig) (func : FunctionSignature)
    (doc_item : DocumentedItem) : List DriftIssue :=
  let param_issues :=
    if cfg.check_parameters && !doc_item.parameters.isEmpty then
      let doc_param_names := doc_item.parameters.map (fun p => p.name)
      let code_param_names :=
        (func.parameters.map (fun p => p.name)).filter (fun n => !(n == "self"))
      let missing_in_docs := code_param_names.filter (fun n => !(doc_param_names.contains n))
      let extra_in_docs := doc_param_names.filter (fun n => !(code_param_names.contains n))
      (if !missing_in_docs.isEmpty then
        [{ drift_type := DriftType.parameter_mismatch,
           severity := DriftSeverity.warning,
           item_name := func.full_name,
           code_location := some func.filepath, code_line := some func.line_number,
           doc_location := some doc_item.filepath, doc_line := some doc_item.line_number }]
       else []) ++
      (if !extra_in_docs.isEmpty then
        [{ drift_type := DriftType.parameter_mismatch,
           severity := DriftSeverity.critical,
           item_name := func.full_name,
           code_location := some func.filepath, code_line := some func.line_number,
           doc_location := some doc_item.filepath, doc_line := some doc_item.line_number }]
       else [])
    else []
  let depr_issues :=
    if doc_item.deprecated &&
        !(func.decorators.any (fun d => pyIn "deprecat" (pyLower d))) then
      [{ drift_type := DriftType.missing_deprecation_notice,
         severity := DriftSeverity.info,
         item_name := func.full_name,
         code_location := some func.filepath, code_line := some func.line_number }]
    else []
  param_issues ++ depr_issues

/-- Source `Comparator._check_class_drift`. -/
def check_class_drift (cls : ClassSignature) (doc_item : DocumentedItem) :
    List DriftIssue :=
  if doc_item.deprecated &&
      !(cls.decorators.any (fun d => pyIn "deprecat" (pyLower d))) then
    [{ drift_type := DriftType.missing_deprecation_notice,
       severity := DriftSeverity.info,
       item_name := cls.name,
       code_location := some cls.filepath, code_line := some cls.line_number }]
  else []

/-- One iteration of `Comparator.compare`'s loop over the function index:
the issues it appends and the doc name it marks matched (if any). -/
def func_step (cfg : ComparatorConfig) (doc_items : Dict DocumentedItem)
    (name : String) (func : FunctionSignature) : List DriftIssue × Option String :=
  if should_ignore cfg.ignore_patterns name then ([], none)
  else
    match find_doc_item doc_items name with
    | some doc_item => (check_function_drift cfg func doc_item, some doc_item.name)
    | none =>
      if optStrFalsy func.docstring && cfg.require_docstrings then
        ([{ drift_type := DriftType.undocumented_function,
            severity := get_severity_for_undocumented func,
            item_name := name,
            code_location := some func.filepath, code_line := some func.line_number }],
         none)
      else ([], none)

/-- Source `Comparator.compare`, loop over the function index. -/
def funcLoop (cfg : ComparatorConfig) (doc_items : Dict DocumentedItem) :
    List (String × FunctionSignature) → List DriftIssue × List String →
    List DriftIssue × List String
  | [], acc => acc
  | (n, f) :: rest, acc =>
    let st := func_step cfg doc_items n f
    funcLoop cfg doc_items rest
      (acc.1 ++ st.1,
       match st.2 with
       | some m => setAdd acc.2 m
       | none => acc.2)

/-- One iteration of `Comparator.compare`'s loop over the class index. -/
def class_step (cfg : ComparatorConfig) (doc_items : Dict DocumentedItem)
    (name : String) (cls : ClassSignature) : List DriftIssue × Option String :=
  if should_ignore cfg.ignore_patterns name then ([], none)
  else
    match find_doc_item doc_items name with
    | some doc_item => (check_class_drift cls doc_item, some doc_item.name)
    | none =>
      if optStrFalsy cls.docstring && cfg.require_docstrings then
        ([{ drift_type := DriftType.undocumented_class,
            severity := DriftSeverity.warning,
            item_name := name,
            code_location := some cls.filepath, code_line := some cls.line_number }],
         none)
      else ([], none)

/-- Source `Comparator.compare`, loop over the class index. -/
def classLoop (cfg : ComparatorConfig) (doc_items : Dict DocumentedItem) :
    List (String × ClassSignature) → List DriftIssue × List String →
    List DriftIssue × List String
  | [], acc => acc
  | (n, c) :: rest, acc =>
    let st := class_step cfg doc_items n c
    classLoop cfg doc_items rest
      (acc.1 ++ st.1,
       match st.2 with
       | some m => setAdd acc.2 m
       | none => acc.2)

/-- One iteration of `Comparator.compare`'s loop over the doc index
(documented items missing from code). -/
def doc_step (code_functions : Dict FunctionSignature)
    (code_classes : Dict ClassSignature) (matched_docs : List String)
    (name : String) (doc_item : DocumentedItem) : List DriftIssue :=
  if name ∈ matched_docs then []
  else if dictContains code_functions name then []
  else if dictContains code_classes name then []
  else if is_external_reference doc_item then []
  else
    [{ drift_type := DriftType.missing_from_code,
       severity := DriftSeverity.critical,
       item_name := name,
       doc_location := some doc_item.filepath, doc_line := some doc_item.line_number }]

/-- Source `Comparator.compare`, loop over the doc index. -/
def docLoop (code_functions : Dict FunctionSignature)
    (code_classes : Dict ClassSignature) (matched_docs : List String) :
    List (String × DocumentedItem) → List DriftIssue → List DriftIssue
  | [], issues => issues
  | (n, it) :: rest, issues =>
    docLoop code_functions code_classes matched_docs rest
      (issues ++ doc_step code_functions code_classes matched_docs n it)

/-- The first two loops of `Comparator.compare` (functions, then classes),
starting from no issues and an empty matched set. -/
def loops12 (cfg : ComparatorConfig) (doc_items : Dict DocumentedItem)
    (code_functions : Dict FunctionSignature)
    (code_classes : Dict ClassSignature) : List DriftIssue × List String :=
  classLoop cfg doc_items code_classes
    (funcLoop cfg doc_items code_functions ([], []))

/-- The `matched_docs` set at the end of `Comparator.compare`'s two code
loops (the set consulted by the missing-from-code loop and by the stats). -/
def matched_docs_of (cfg : ComparatorConfig) (code_results : List ParseResult)
    (doc_results : List DocParseResult) : List String :=
  (loops12 cfg (index_doc_items doc_results) (index_functions code_results)
    (index_classes code_results)).2

/-- Source `Comparator.compare`. -/
def compare (cfg : ComparatorConfig) (code_results : List ParseResult)
    (doc_results : List DocParseResult) : ComparisonResult :=
  let code_functions := index_functions code_results
  let code_classes := index_classes code_results
  let doc_items := index_doc_items doc_results
  let acc := loops12 cfg doc_items code_functions code_classes
  let issues := docLoop code_functions code_classes acc.2 doc_items acc.1
  { issues := issues,
    stats :=
      { total_functions := dictLen code_functions,
        total_classes := dictLen code_classes,
        total_documented := dictLen doc_items,
        matched := acc.2.length,
        undocumented :=
          (dictLen code_functions : Int) + (dictLen code_classes : Int)
            - (acc.2.length : Int) } }

/-! ## Structural Python extractor (`src/parser.py`)

The repository parses a Python file with `ast.parse` inside a
`try`/`except`.  The outcome of reading and parsing — a syntax tree, a
`SyntaxError`, or any other exception (e.g. an unreadable file) — is the
input of the model; the tree walk and the two `except` arms are translated
from the source.  The JavaScript regex extractor is outside the claims and
is not modelled; unsupported extensions are dispatched to no parser, as in
`CodeParser.parse_file`. -/

/-- A node of the Python AST, restricted to the shape the extractor
inspects: function definitions (with argument names/annotations, trailing
default literals, return annotation, leading-docstring, async flag and
decorator texts), class definitions, and any other statement with its
nested children. -/
inductive PyStmt where
  | funcdef (name : String) (lineno : Nat) (args : List (String × Option String))
      (defaults : List String) (returns : Option String) (docstring : Option String)
      (is_async : Bool) (decorators : List String) (body : List PyStmt)
  | classdef (name : String) (lineno : Nat) (bases : List String)
      (docstring : Option String) (decorators : List String) (body : List PyStmt)
  | stmt (body : List PyStmt)

/-- Outcome of `open(...)` + `ast.parse(...)` for one file. -/
inductive PySource where
  | parsed (tree : List PyStmt)
  | syntaxError (msg : String)
  | parseError (msg : String)

/-- Alignment of default literals to the trailing parameters
(`offset = len(params) - len(defaults)` in `PythonParser._parse_function`). -/
def alignDefaults (params : List Parameter) (defaults : List String) : List Parameter :=
  let offset := params.length - defaults.length
  params.take offset ++
    ((params.drop offset).zip defaults).map (fun pd => { pd.1 with default := some pd.2 })

/-- Source `PythonParser._parse_function` (applied to a `FunctionDef` /
`AsyncFunctionDef` node). -/
def parse_py_function (filepath : String) (class_name : Option String) :
    PyStmt → Option FunctionSignature
  | PyStmt.funcdef name lineno args defaults returns docstring is_async decorators _ =>
    some { name := name, filepath := filepath, line_number := lineno,
           parameters := alignDefaults
             (args.map (fun a => { name := a.1, type_hint := a.2 })) defaults,
           return_type := returns, docstring := docstring, is_async := is_async,
           is_method := class_name.isSome, class_name := class_name,
           decorators := decorators }
  | _ => none

/-- Source `PythonParser._parse_class`: methods are the function definitions that
are direct children of the class body, parsed with the owning class name. -/
def parse_py_class (filepath : String) : PyStmt → Option ClassSignature
  | PyStmt.classdef name lineno bases docstring decorators body =>
    some { name := name, filepath := filepath, line_number := lineno,
           bases := bases, docstring := docstring,
           methods := body.filterMap (parse_py_function filepath (some name)),
           decorators := decorators }
  | _ => none

mutual
/-- All `ClassDef` nodes of a subtree (`ast.walk` collects every class
regardless of nesting; `ast.walk` enumerates breadth-first and this model
preorder — the two differ only in the order of unrelated classes, which the
comparator re-indexes by name). -/
def collectClassNodes : PyStmt → List PyStmt
  | PyStmt.funcdef _ _ _ _ _ _ _ _ body => collectClassNodesList body
  | PyStmt.classdef name lineno bases docstring decorators body =>
    PyStmt.classdef name lineno bases docstring decorators body
      :: collectClassNodesList body
  | PyStmt.stmt body => collectClassNodesList body

def collectClassNodesList : List PyStmt → List PyStmt
  | [] => []
  | s :: rest => collectClassNodes s ++ collectClassNodesList rest
end

/-- Source `PythonParser.parse_file`: the two `except` arms fail soft with an
`errors` entry and empty signature lists; on success, top-level function
definitions (direct children of the module, per `_is_top_level`) and all
class definitions are collected. -/
def PythonParser.parse_file (filepath : String) : PySource → ParseResult
  | PySource.syntaxError msg =>
    { filepath := filepath, language := "python",
      errors := ["Syntax error: " ++ msg] }
  | PySource.parseError msg =>
    { filepath := filepath, language := "python",
      errors := ["Parse error: " ++ msg] }
  | PySource.parsed tree =>
    { filepath := filepath, language := "python",
      functions := tree.filterMap (parse_py_function filepath none),
      classes := (collectClassNodesList tree).filterMap (parse_py_class filepath) }

/-- A file handed to `CodeParser`: its path and the outcome of reading and
parsing it as Python (relevant only when the path dispatches to the Python
strategy). -/
structure SourceFile where
  filepath : String
  src : PySource

/-- Source `CodeParser.parse_file`: extension dispatch (`LANGUAGE_MAP`); a `.py`
suffix selects the structural strategy, anything else yields no result in
this model (the JavaScript strategy is outside the claims). -/
def CodeParser.parse_file (f : SourceFile) : Option ParseResult :=
  if pyEndsWith (pyLower f.filepath) ".py" then
    some (PythonParser.parse_file f.filepath f.src)
  else none

/-- Default `exclude_patterns` of `CodeParser.parse_directory`. -/
def defaultExcludePatterns : List String :=
  ["node_modules", "__pycache__", ".git", "venv", ".venv"]

/-- Source `CodeParser.parse_directory`: every file whose full path contains any
exclude pattern as a substring is skipped; every other file is parsed and
its result appended (files with no dispatched parser yield nothing). -/
def CodeParser.parse_directory (files : List SourceFile)
    (exclude_patterns : List String) : List ParseResult :=
  files.filterMap (fun f =>
    if exclude_patterns.any (fun p => pyIn p f.filepath) then none
    else CodeParser.parse_file f)

/-! ## Markdown function-heading pass (`src/doc_parser.py`)

`MarkdownParser.parse_file` runs `FUNC_HEADER_PATTERN` (`^#{1,4}\\s+`,
optional backtick, `\\w+(\\.\\w+)?`, `\\s*`, `(`, `[^)]*`, `)`, optional
backtick) over the whole raw content with `re.finditer` under
`re.MULTILINE`: a match must start at a line start (`^`), but its `\\s+`,
`\\s*` and `[^)]*` parts may consume line breaks, so one match can span
several lines and the non-overlapping scan then swallows any heading lines
it covers.  The matcher below implements one attempted match at a content
position; the regex is deterministic here because every greedy part is
followed by a character disjoint from its class, so no backtracking ever
yields a different successful parse (only the optional dotted suffix needs
the explicit fallback).  Line numbers are
`content[:m.start()].count('\\n') + 1`; descriptions are read from
`content.split('\\n')`.  The parameter, deprecation and `@since` scans
operate on raw character offsets of the whole file and are outside the
claims; the corresponding fields keep their defaults here. -/

/-- Python `\\w` on the repository's ASCII identifiers. -/
def isWordChar (c : Char) : Bool := c.isAlpha || c.isDigit || c == '_'

def backquote : Char := '\x60'

def countLeadingHashes : List Char → Nat
  | '#' :: rest => countLeadingHashes rest + 1
  | _ => 0

/-- Number of newline characters in a character list. -/
def newlineCount (cs : List Char) : Nat :=
  (cs.filter (fun c => c == '\n')).length

/-- Python `content.split('\\n')` at the character level (keeps empty
pieces; the empty content yields a single empty line). -/
def splitLinesChars : List Char → List (List Char)
  | [] => [[]]
  | c :: rest =>
    if c == '\n' then [] :: splitLinesChars rest
    else
      match splitLinesChars rest with
      | [] => [[c]]
      | l :: ls => (c :: l) :: ls

/-- Python `content.split('\\n')`. -/
def splitLines (s : String) : List String :=
  (splitLinesChars s.data).map String.mk

/-- Consume one leading backtick if present (the pattern's optional
backtick). -/
def skipBacktick (l : List Char) : List Char :=
  match l with
  | b :: r => if b == backquote then r else l
  | [] => l

/-- Consume the regex's opening parenthesis: the head of the remainder
must be `(`; returns the given captured name paired with the content after
the parenthesis. -/
def parenAfter (nm : String) : List Char → Option (String × List Char)
  | [] => none
  | c6 :: r7 => if c6 == '(' then some (nm, r7) else none

/-- The regex's optional dotted extension `(?:\\.\\w+)?` followed by
`\\s*\\(`, tried first (greedy): a dot, a non-empty identifier run, optional
whitespace, then the opening parenthesis. -/
def dottedBranch (w1 : List Char) : List Char → Option (String × List Char)
  | [] => none
  | c5 :: r5 =>
    if c5 == '.' then
      if (r5.takeWhile isWordChar).isEmpty then none
      else
        parenAfter (String.mk (w1 ++ '.' :: r5.takeWhile isWordChar))
          ((r5.dropWhile isWordChar).dropWhile pySpace)
    else none

/-- After the leading identifier run `w1`, complete the regex's
`(?:\\.\\w+)?\\s*\\(`: first try the dotted extension, then fall back to the
plain form, exactly as the regex backtracks over the optional group.
Returns the captured name and the content after the opening parenthesis. -/
def nameAndAfterParen (w1 r4 : List Char) : Option (String × List Char) :=
  match dottedBranch w1 r4 with
  | some nr => some nr
  | none => parenAfter (String.mk w1) (r4.dropWhile pySpace)

/-- The regex's closing `\\)` after the greedy `[^)]*` (the third argument
is the remainder starting at the first `)` if any), consuming the optional
trailing backtick. -/
def closeParen (nm : String) (args : String) : List Char → Option (String × String × List Char)
  | [] => none
  | c2 :: rem => if c2 == ')' then some (nm, args, skipBacktick rem) else none

/-- Capture `([^)]*)\\)` with the optional trailing backtick: the argument
text is everything before the first `)` of the remaining content. -/
def finishArgs (nm : String) (afterParen : List Char) : Option (String × String × List Char) :=
  closeParen nm (String.mk (afterParen.takeWhile (fun ch => !(ch == ')'))))
    (afterParen.dropWhile (fun ch => !(ch == ')')))

/-- The part of one attempted match after the leading `#` run: at least one
whitespace character (possibly a newline), the optional backtick, the
non-empty identifier run, the dotted/plain completion up to `(`, and the
argument capture up to `)`. -/
def matchAfterHashes : List Char → Option (String × String × List Char)
  | [] => none
  | c :: rest1 =>
    if pySpace c then
      if ((skipBacktick ((c :: rest1).dropWhile pySpace)).takeWhile
          isWordChar).isEmpty then none
      else
        match nameAndAfterParen
            ((skipBacktick ((c :: rest1).dropWhile pySpace)).takeWhile isWordChar)
            ((skipBacktick ((c :: rest1).dropWhile pySpace)).dropWhile isWordChar)
          with
        | none => none
        | some nr => finishArgs nr.1 nr.2
    else none

/-- One attempted match of `FUNC_HEADER_PATTERN` at a position of the raw
content (`\\s+`, `\\s*` and `[^)]*` may consume newlines): one to four
leading `#` (a longer `#` run can never match, as every shorter split
leaves a `#` where the regex requires whitespace), then the rest of the
pattern.  Returns the captured name, the captured argument text and the
remaining content after the match. -/
def matchFuncAt (cs : List Char) : Option (String × String × List Char) :=
  if 1 ≤ countLeadingHashes cs ∧ countLeadingHashes cs ≤ 4 then
    matchAfterHashes (cs.drop (countLeadingHashes cs))
  else none

/-- Per-line reading of the function-heading pattern, as claim C9 states
it: the pattern applied to one heading line on its own.  (On a single line
this coincides with `matchFuncAt`; over the whole content the program may
behave differently, which is what refutes the per-line claim.) -/
def matchFuncHeader (line : String) : Option (String × String) :=
  (matchFuncAt line.data).map (fun r => (r.1, r.2.1))

/-- The non-overlapping scan of `re.finditer` over the raw content:
positions are tried left to right, `^` restricts match starts to line
starts, and scanning resumes right after each match end.  Carries the
number of newlines seen before the current position (the source's
`content[:m.start()].count('\\n') + 1` line number).  The fuel starts at
the content length; every iteration consumes at least one character (a
match consumes its leading `#` at least), so the fuel never runs out
before the content does — `scanAux_fuel_congr` below proves any larger
fuel computes the same scan. -/
def scanAux : Nat → List Char → Nat → Bool → List (Nat × String × String)
  | 0, _, _, _ => []
  | Nat.succ fuel, cs, ln, atStart =>
    match cs with
    | [] => []
    | c :: rest =>
      if atStart then
        match matchFuncAt (c :: rest) with
        | some r =>
          (ln + 1, r.1, r.2.1) ::
            scanAux fuel r.2.2
              (ln + (newlineCount (c :: rest) - newlineCount r.2.2)) false
        | none =>
          scanAux fuel rest (if c == '\n' then ln + 1 else ln) (c == '\n')
      else
        scanAux fuel rest (if c == '\n' then ln + 1 else ln) (c == '\n')

/-- All matches of `FUNC_HEADER_PATTERN` over the content, as
`(line_number, name, args)` triples, in scan order. -/
def scanFuncHeaders (cs : List Char) : List (Nat × String × String) :=
  scanAux cs.length cs 0 true

/-- The collection loop of `MarkdownParser._extract_description`: examines
at most ten lines; a stripped line starting with `#` stops; a non-empty
line not opening a code fence is collected; a blank or fence line stops
once something has been collected and is skipped before that. -/
def extract_description_go : List String → Nat → List String → List String
  | _, 0, acc => acc
  | [], _, acc => acc
  | l :: rest, Nat.succ fuel, acc =>
    let s := pyStrip l
    if pyStartsWith s "#" then acc
    else if !(s == "") && !(pyStartsWith s "```") then
      extract_description_go rest fuel (acc ++ [s])
    else if !acc.isEmpty then acc
    else extract_description_go rest fuel acc

/-- Source `MarkdownParser._extract_description` (`start_line` is the 1-based
line number of the heading, hence the 0-based index of the line after it). -/
def extract_description (lines : List String) (start_line : Nat) : Option String :=
  let ds := extract_description_go (lines.drop start_line) 10 []
  if ds.isEmpty then none else some (String.intercalate " " ds)

/-- The function-heading pass of `MarkdownParser.parse_file`: one
`DocumentedItem` of `doc_type` `"function"` per `finditer` match of
`FUNC_HEADER_PATTERN` over the raw content, named by the captured
identifier, at the line of the match start, with the following-lines
description. -/
def md_func_items (filepath : String) (content : String) : List DocumentedItem :=
  (scanFuncHeaders content.data).map (fun e =>
    { name := e.2.1, filepath := filepath, line_number := e.1,
      doc_type := "function",
      description := extract_description (splitLines content) e.1 })

/-! ## Helper functions for the statements and proofs -/

/-- Number of issues of a given drift type carrying a given item name. -/
def countIssues (l : List DriftIssue) (t : DriftType) (n : String) : Nat :=
  (l.filter (fun i => i.drift_type == t && i.item_name == n)).length

/-- Number of issues of a given drift type at a given severity. -/
def countSev (l : List DriftIssue) (t : DriftType) (s : DriftSeverity) : Nat :=
  (l.filter (fun i => i.drift_type == t && i.severity == s)).length

/-- Step (1) of `_find_doc_item`: exact key match. -/
def find_step_exact (doc_items : Dict DocumentedItem) (name : String) :
    Option DocumentedItem := dictLookup doc_items name

/-- Step (2) of `_find_doc_item`: for a dotted name, exact match on the
part after the last dot. -/
def find_step_suffix (doc_items : Dict DocumentedItem) (name : String) :
    Option DocumentedItem :=
  if hasDot name then dictLookup doc_items (afterLastDot name) else none

/-- Step (3) of `_find_doc_item`: first case-insensitive hit in insertion
order. -/
def find_step_ci (doc_items : Dict DocumentedItem) (name : String) :
    Option DocumentedItem :=
  doc_items.findSome? (fun kv =>
    if pyLower kv.1 == pyLower name then some kv.2 else none)

/-- Issues contributed by one of the compare loops, entry by entry, for a
given per-entry step function. -/
def issuesOfEntries {beta : Type} (step : String → beta → List DriftIssue) :
    List (String × beta) → List DriftIssue
  | [] => []
  | (n, b) :: rest => step n b ++ issuesOfEntries step rest

/-- The issues contributed by the function loop, entry by entry. -/
def funcIssuesOf (cfg : ComparatorConfig) (doc_items : Dict DocumentedItem)
    (entries : List (String × FunctionSignature)) : List DriftIssue :=
  issuesOfEntries (fun n f => (func_step cfg doc_items n f).1) entries

/-- The issues contributed by the class loop, entry by entry. -/
def classIssuesOf (cfg : ComparatorConfig) (doc_items : Dict DocumentedItem)
    (entries : List (String × ClassSignature)) : List DriftIssue :=
  issuesOfEntries (fun n c => (class_step cfg doc_items n c).1) entries

/-- The issues contributed by the missing-from-code loop, entry by entry. -/
def docIssuesOf (code_functions : Dict FunctionSignature)
    (code_classes : Dict ClassSignature) (matched : List String)
    (entries : List (String × DocumentedItem)) : List DriftIssue :=
  issuesOfEntries (fun n it => doc_step code_functions code_classes matched n it) entries

/-- The matched-docs set after the function loop, entry by entry. -/
def funcMatchedOf (cfg : ComparatorConfig) (doc_items : Dict DocumentedItem) :
    List (String × FunctionSignature) → List String → List String
  | [], m => m
  | (n, f) :: rest, m =>
    funcMatchedOf cfg doc_items rest
      (match (func_step cfg doc_items n f).2 with
       | some x => setAdd m x
       | none => m)

/-- The matched-docs set after the class loop, entry by entry. -/
def classMatchedOf (cfg : ComparatorConfig) (doc_items : Dict DocumentedItem) :
    List (String × ClassSignature) → List String → List String
  | [], m => m
  | (n, c) :: rest, m =>
    classMatchedOf cfg doc_items rest
      (match (class_step cfg doc_items n c).2 with
       | some x => setAdd m x
       | none => m)

/-! ## Concrete inputs used by the witnesses and the counterexample -/

def funcScC : FunctionSignature :=
  { name := "real_func", filepath := "test.py", line_number := 1,
    docstring := some "Exists" }

def crScC : List ParseResult :=
  [{ filepath := "test.py", language := "python", functions := [funcScC] }]

def drScC : List DocParseResult :=
  [{ filepath := "test.md", format := DocFormat.markdown,
     items :=
       [{ name := "real_func", filepath := "test.md", line_number := 1,
          doc_type := "function" },
        { name := "ghost_func", filepath := "test.md", line_number := 2,
          doc_type := "function" }] }]

def ghostItem : DocumentedItem :=
  { name := "ghost_func", filepath := "test.md", line_number := 2,
    doc_type := "function" }

def funcScD : FunctionSignature :=
  { name := "func", filepath := "test.py", line_number := 1,
    parameters := [{ name := "a" }, { name := "b" }, { name := "c" }],
    docstring := some "Has params" }

def docScD : DocumentedItem :=
  { name := "func", filepath := "test.md", line_number := 1,
    doc_type := "function",
    parameters := [{ name := "a" }, { name := "old_param" }] }

def mSigC4 : FunctionSignature :=
  { name := "m", filepath := "t.py", line_number := 2,
    class_name := some "C", is_method := true }

def clsC4 : ClassSignature :=
  { name := "C", filepath := "t.py", line_number := 1, methods := [mSigC4] }

def prC4 : ParseResult :=
  { filepath := "t.py", language := "python", classes := [clsC4] }

def funcScB : FunctionSignature :=
  { name := "undocumented_func", filepath := "test.py", line_number := 2 }

def crScB : List ParseResult :=
  [{ filepath := "test.py", language := "python",
     functions :=
       [{ name := "documented_func", filepath := "test.py", line_number := 1,
          docstring := some "Has docs" },
        funcScB] }]

def drScB : List DocParseResult :=
  [{ filepath := "test.md", format := DocFormat.markdown,
     items :=
       [{ name := "documented_func", filepath := "test.md", line_number := 1,
          doc_type := "function" }] }]

def crScF : List ParseResult :=
  [{ filepath := "test.py", language := "python",
     functions :=
       [{ name := "func1", filepath := "test.py", line_number := 1,
          docstring := some "Doc" },
        { name := "func2", filepath := "test.py", line_number := 2,
          docstring := some "Doc" }],
     classes := [{ name := "Class1", filepath := "test.py", line_number := 3 }] }]

def drScF : List DocParseResult :=
  [{ filepath := "test.md", format := DocFormat.markdown,
     items :=
       [{ name := "func1", filepath := "test.md", line_number := 1,
          doc_type := "function" },
        { name := "func2", filepath := "test.md", line_number := 2,
          doc_type := "function" }] }]

def mdContentEx : String :=
  "# foo(a, b)\nAdds a and b.\n\n#### `bar.baz(x)`\n##### nope(x)"

def mdCexContent : String := "# weird(\n## good(x)"

/-! ### Dictionary lemmas -/

theorem dictLookup_insert_self {α : Type} (d : Dict α) (k : String) (v : α) :
    dictLookup (dictInsert d k v) k = some v := by
  induction d with
  | nil => simp [dictInsert, dictLookup]
  | cons hd tl ih =>
    obtain ⟨k0, v0⟩ := hd
    by_cases h : k0 = k
    · simp [dictInsert, dictLookup, h]
    · simp only [dictInsert, dictLookup, beq_iff_eq, h, if_false]
      simpa [dictLookup, h] using ih

theorem dictLookup_insert_ne {α : Type} (d : Dict α) (k k1 : String) (v : α)
    (h : k1 ≠ k) : dictLookup (dictInsert d k v) k1 = dictLookup d k1 := by
  induction d with
  | nil => simp [dictInsert, dictLookup, Ne.symm h]
  | cons hd tl ih =>
    obtain ⟨k0, v0⟩ := hd
    by_cases h0 : k0 = k
    · subst h0
      simp [dictInsert, dictLookup, Ne.symm h]
    · simp [dictInsert, dictLookup, h0, ih]

theorem dictContains_insert {α : Type} (d : Dict α) (k k1 : String) (v : α)
    (h : dictContains d k1 = true) :
    dictContains (dictInsert d k v) k1 = true := by
  by_cases hk : k1 = k
  · subst hk
    simp [dictContains, dictLookup_insert_self]
  · simpa [dictContains, dictLookup_insert_ne d k k1 v hk] using h

theorem dictKeys_insert {α : Type} (d : Dict α) (k : String) (v : α) :
    dictKeys (dictInsert d k v) = if k ∈ dictKeys d then dictKeys d else dictKeys d ++ [k] := by
  induction d with
  | nil => simp [dictInsert, dictKeys]
  | cons hd tl ih =>
    obtain ⟨k0, v0⟩ := hd
    by_cases h : k0 = k
    · subst h
      simp [dictInsert, dictKeys]
    · have hcons : dictKeys (dictInsert ((k0, v0) :: tl) k v)
          = k0 :: dictKeys (dictInsert tl k v) := by
        simp [dictInsert, h, dictKeys]
      rw [hcons, ih]
      by_cases hmem : k ∈ List.map Prod.fst tl
      · simp [dictKeys, hmem]
      · simp [dictKeys, hmem, Ne.symm h]

theorem dictKeys_nodup_insert {α : Type} (d : Dict α) (k : String) (v : α)
    (h : (dictKeys d).Nodup) : (dictKeys (dictInsert d k v)).Nodup := by
  rw [dictKeys_insert]
  by_cases hmem : k ∈ dictKeys d
  · simpa [hmem] using h
  · simpa [hmem, List.nodup_append] using h

theorem dictLookup_mem {α : Type} (d : Dict α) (k : String) (v : α)
    (h : dictLookup d k = some v) : (k, v) ∈ d := by
  induction d with
  | nil => simp [dictLookup] at h
  | cons hd tl ih =>
    obtain ⟨k0, v0⟩ := hd
    by_cases h0 : k0 = k
    · subst h0
      simp only [dictLookup, beq_self_eq_true, if_true, Option.some.injEq] at h
      subst h
      exact List.mem_cons_self _ _
    · simp only [dictLookup, beq_iff_eq, h0, if_false] at h
      exact List.mem_cons_of_mem _ (ih h)

theorem mem_dictLookup {α : Type} (d : Dict α) (k : String) (v : α)
    (hnd : (dictKeys d).Nodup) (h : (k, v) ∈ d) : dictLookup d k = some v := by
  induction d with
  | nil => simp at h
  | cons hd tl ih =>
    obtain ⟨k0, v0⟩ := hd
    rcases List.mem_cons.mp h with h1 | h1
    · injection h1 with hk hv
      subst hk
      subst hv
      simp [dictLookup]
    · have hnd2 := List.nodup_cons.mp
        (show (k0 :: List.map Prod.fst tl).Nodup from hnd)
      have hk0 : k0 ≠ k := by
        intro hh
        subst hh
        exact hnd2.1 (by
          simp only [List.mem_map]
          exact ⟨(k0, v), h1, rfl⟩)
      have htl : (dictKeys tl).Nodup := by simpa [dictKeys] using hnd2.2
      simp [dictLookup, hk0, ih htl h1]

theorem setAdd_nodup (s : List String) (x : String) (h : s.Nodup) :
    (setAdd s x).Nodup := by
  unfold setAdd
  by_cases hx : x ∈ s
  · simpa [hx] using h
  · simp only [hx, if_false]
    exact List.nodup_cons.mpr ⟨hx, h⟩

theorem setAdd_length_le (s : List String) (x : String) :
    (setAdd s x).length ≤ s.length + 1 := by
  unfold setAdd
  by_cases hx : x ∈ s <;> simp [hx]

theorem mem_setAdd (s : List String) (x y : String) (h : y ∈ setAdd s x) :
    y = x ∨ y ∈ s := by
  unfold setAdd at h
  by_cases hx : x ∈ s
  · rw [if_pos hx] at h
    exact Or.inr h
  · rw [if_neg hx] at h
    exact List.mem_cons.mp h

theorem setAdd_subset (s : List String) (x : String) (t : List String)
    (hs : ∀ y ∈ s, y ∈ t) (hx : x ∈ t) : ∀ y ∈ setAdd s x, y ∈ t := by
  unfold setAdd
  by_cases hmem : x ∈ s
  · simpa [hmem] using hs
  · intro y hy
    simp [hmem] at hy
    rcases hy with hy | hy
    · simpa [hy] using hx
    · exact hs y hy


/-! ### General list lemmas -/

theorem filter_not_isEmpty_eq_any {α : Type} (l : List α) (p : α → Bool) :
    (!(l.filter p).isEmpty) = l.any p := by
  induction l with
  | nil => rfl
  | cons a as ih => cases h : p a <;> simp [List.filter_cons, h, ih]

theorem countSev_append (a b : List DriftIssue) (t : DriftType) (s : DriftSeverity) :
    countSev (a ++ b) t s = countSev a t s + countSev b t s := by
  simp [countSev, List.filter_append]

theorem countIssues_append (a b : List DriftIssue) (t : DriftType) (n : String) :
    countIssues (a ++ b) t n = countIssues a t n + countIssues b t n := by
  simp [countIssues, List.filter_append]

/-! ### Claim C3 -/

/-- C3: For every code name looked up against the doc index,
`_find_doc_item` applies exactly three steps in order — exact key match;
when the name contains a dot, exact match on the part after the last dot;
case-insensitive comparison against every doc name — returns the result of
the first step that succeeds without attempting later steps, and returns
no item when all three fail. -/
theorem c3_find_doc_item_three_steps (doc_items : Dict DocumentedItem) (name : String) :
    find_doc_item doc_items name =
      (find_step_exact doc_items name).orElse (fun _ =>
        (find_step_suffix doc_items name).orElse (fun _ =>
          find_step_ci doc_items name)) := by
  unfold find_doc_item find_step_exact find_step_suffix find_step_ci
  cases dictLookup doc_items name with
  | some it => rfl
  | none =>
    cases (if hasDot name then dictLookup doc_items (afterLastDot name) else none) with
    | some it => rfl
    | none => rfl

/-! ### Claim C5 -/

/-- C5: `_should_ignore(n, S)` returns true iff some pattern in `S`
matches `n`, where a pattern ending in `*` matches prefix-wise on the
pattern minus its final `*`, a pattern starting with `*` (and not ending
in one) matches suffix-wise on the pattern minus its leading `*`, and any
other pattern matches only by exact equality (`ignore_pattern_matches`). -/
theorem c5_should_ignore_iff (patterns : List String) (name : String) :
    should_ignore patterns name = true ↔
      ∃ p, p ∈ patterns ∧ ignore_pattern_matches p name = true := by
  unfold should_ignore
  simp [List.any_eq_true]

theorem c5_witness :
    should_ignore ["__init__", "_*"] "_private_func" = true :=
  (c5_should_ignore_iff ["__init__", "_*"] "_private_func").mpr
    ⟨"_*", by simp, by decide⟩

/-! ### Claim C2 -/

/-- C2: For a matched function, when `check_parameters` is set and the doc
item declares at least one parameter, `_check_function_drift` emits exactly
one CRITICAL `PARAMETER_MISMATCH` issue iff the doc parameter-name set
minus the code parameter-name set (code set excluding `self`) is
non-empty, and independently exactly one WARNING `PARAMETER_MISMATCH`
issue iff the code set minus the doc set is non-empty. -/
theorem c2_parameter_mismatch_counts (cfg : ComparatorConfig)
    (func : FunctionSignature) (doc_item : DocumentedItem)
    (hcp : cfg.check_parameters = true)
    (hne : doc_item.parameters ≠ []) :
    countSev (check_function_drift cfg func doc_item)
        DriftType.parameter_mismatch DriftSeverity.critical
      = (if (doc_item.parameters.map DocParam.name).any
            (fun n => !(((func.parameters.map Parameter.name).filter
                (fun m => !(m == "self"))).contains n)) then 1 else 0) ∧
    countSev (check_function_drift cfg func doc_item)
        DriftType.parameter_mismatch DriftSeverity.warning
      = (if ((func.parameters.map Parameter.name).filter
              (fun m => !(m == "self"))).any
            (fun n => !((doc_item.parameters.map DocParam.name).contains n))
         then 1 else 0) := by
  have hne2 : doc_item.parameters.isEmpty = false := by
    cases hp : doc_item.parameters with
    | nil => exact absurd hp hne
    | cons a as => rfl
  rw [← filter_not_isEmpty_eq_any, ← filter_not_isEmpty_eq_any]
  simp only [check_function_drift, hcp, hne2, Bool.not_false, Bool.true_and, if_true,
    countSev_append]
  cases hmiss :
      (((func.parameters.map Parameter.name).filter (fun m => !(m == "self"))).filter
        (fun n => !((doc_item.parameters.map DocParam.name).contains n))).isEmpty <;>
    cases hextra :
        ((doc_item.parameters.map DocParam.name).filter
          (fun n => !(((func.parameters.map Parameter.name).filter
            (fun m => !(m == "self"))).contains n))).isEmpty <;>
      cases hdep : (doc_item.deprecated &&
          !(func.decorators.any (fun d => pyIn "deprecat" (pyLower d)))) <;>
        · simp only [Bool.not_true, Bool.not_false, if_true, if_false]
          exact ⟨rfl, rfl⟩

theorem c2_witness :
    ({} : ComparatorConfig).check_parameters = true ∧
    docScD.parameters ≠ [] ∧
    countSev (check_function_drift {} funcScD docScD)
      DriftType.parameter_mismatch DriftSeverity.critical = 1 ∧
    countSev (check_function_drift {} funcScD docScD)
      DriftType.parameter_mismatch DriftSeverity.warning = 1 := by
  have h := c2_parameter_mismatch_counts {} funcScD docScD rfl (by decide)
  refine ⟨rfl, by decide, ?_, ?_⟩
  · rw [h.1]; decide
  · rw [h.2]; decide

/-! ### Claim C4 -/

/-- C4 is false on the code: in `_index_functions`, a method listed under
its class receives only its qualified key `Class.method`; the bare key
`method` is never added for it.  Concretely, for a single class `C` with
method `m`, the index contains `C.m` but not `m`. -/
theorem c4_counterexample :
    dictLookup (index_functions [prC4]) "C.m" = some mSigC4 ∧
    dictLookup (index_functions [prC4]) "m" = none := by
  constructor <;> rfl

theorem contains_insertFunctionEntries (idx : Dict FunctionSignature)
    (fs : List FunctionSignature) (k : String)
    (h : dictContains idx k = true) :
    dictContains (insertFunctionEntries idx fs) k = true := by
  induction fs generalizing idx with
  | nil => exact h
  | cons f rest ih =>
    simp only [insertFunctionEntries]
    cases hcn : f.class_name <;>
      simp only [hcn] <;>
      exact ih _ (by
        first
        | exact dictContains_insert _ _ _ _ h
        | exact dictContains_insert _ _ _ _ (dictContains_insert _ _ _ _ h))

theorem dictContains_insert_self {α : Type} (d : Dict α) (k : String) (v : α) :
    dictContains (dictInsert d k v) k = true := by
  simp [dictContains, dictLookup_insert_self]

theorem contains_insertMethodEntries (idx : Dict FunctionSignature)
    (ms : List FunctionSignature) (k : String)
    (h : dictContains idx k = true) :
    dictContains (insertMethodEntries idx ms) k = true := by
  induction ms generalizing idx with
  | nil => exact h
  | cons m rest ih =>
    exact ih _ (dictContains_insert _ _ _ _ h)

theorem contains_insertClassMethodEntries (idx : Dict FunctionSignature)
    (cs : List ClassSignature) (k : String)
    (h : dictContains idx k = true) :
    dictContains (insertClassMethodEntries idx cs) k = true := by
  induction cs generalizing idx with
  | nil => exact h
  | cons c rest ih =>
    exact ih _ (contains_insertMethodEntries _ _ _ h)

theorem contains_index_functions_aux (idx : Dict FunctionSignature)
    (rs : List ParseResult) (k : String)
    (h : dictContains idx k = true) :
    dictContains (index_functions_aux idx rs) k = true := by
  induction rs generalizing idx with
  | nil => exact h
  | cons r rest ih =>
    exact ih _ (contains_insertClassMethodEntries _ _ _
      (contains_insertFunctionEntries _ _ _ h))

theorem insertMethodEntries_contains (idx : Dict FunctionSignature)
    (ms : List FunctionSignature) (m : FunctionSignature) (h : m ∈ ms) :
    dictContains (insertMethodEntries idx ms) m.full_name = true := by
  induction ms generalizing idx with
  | nil => simp at h
  | cons m0 rest ih =>
    simp only [insertMethodEntries]
    rcases List.mem_cons.mp h with h1 | h1
    · subst h1
      exact contains_insertMethodEntries _ rest _ (dictContains_insert_self _ _ _)
    · exact ih _ h1

theorem insertClassMethodEntries_contains (idx : Dict FunctionSignature)
    (cs : List ClassSignature) (c : ClassSignature) (m : FunctionSignature)
    (hc : c ∈ cs) (hm : m ∈ c.methods) :
    dictContains (insertClassMethodEntries idx cs) m.full_name = true := by
  induction cs generalizing idx with
  | nil => simp at hc
  | cons c0 rest ih =>
    simp only [insertClassMethodEntries]
    rcases List.mem_cons.mp hc with h1 | h1
    · subst h1
      exact contains_insertClassMethodEntries _ rest _
        (insertMethodEntries_contains idx c.methods m hm)
    · exact ih _ h1

theorem insertFunctionEntries_contains (idx : Dict FunctionSignature)
    (fs : List FunctionSignature) (f : FunctionSignature) (h : f ∈ fs) :
    dictContains (insertFunctionEntries idx fs) f.full_name = true ∧
    (f.class_name.isSome = true →
      dictContains (insertFunctionEntries idx fs) f.name = true) := by
  induction fs generalizing idx with
  | nil => simp at h
  | cons f0 rest ih =>
    rcases List.mem_cons.mp h with h1 | h1
    · subst h1
      constructor
      · cases hcn : f.class_name with
        | none =>
          simp only [insertFunctionEntries, hcn]
          exact contains_insertFunctionEntries _ rest _
            (dictContains_insert_self _ _ _)
        | some c =>
          simp only [insertFunctionEntries, hcn]
          exact contains_insertFunctionEntries _ rest _
            (dictContains_insert _ _ _ _ (dictContains_insert_self _ _ _))
      · intro hs
        cases hcn : f.class_name with
        | none => simp [hcn] at hs
        | some c =>
          simp only [insertFunctionEntries, hcn]
          exact contains_insertFunctionEntries _ rest _
            (dictContains_insert_self _ _ _)
    · simp only [insertFunctionEntries]
      exact ⟨(ih _ h1).1, fun hs => (ih _ h1).2 hs⟩

/-- C4, amended to what `_index_functions` does: every method owned by a
class is indexed under its qualified `full_name` (only); entries of a
`ParseResult`'s top-level `functions` list are indexed under their
`full_name`, and additionally under their bare `name` exactly when they
carry a `class_name` — method reachability by unqualified lookup therefore
holds only for such `functions`-list entries, not for methods listed under
classes. -/
theorem c4_amended_index_functions_keys (results : List ParseResult) :
    (∀ r ∈ results, ∀ c ∈ r.classes, ∀ m ∈ c.methods,
        dictContains (index_functions results) m.full_name = true) ∧
    (∀ r ∈ results, ∀ f ∈ r.functions,
        dictContains (index_functions results) f.full_name = true ∧
        (f.class_name.isSome = true →
          dictContains (index_functions results) f.name = true)) := by
  suffices h : ∀ idx : Dict FunctionSignature,
      (∀ r ∈ results, ∀ c ∈ r.classes, ∀ m ∈ c.methods,
          dictContains (index_functions_aux idx results) m.full_name = true) ∧
      (∀ r ∈ results, ∀ f ∈ r.functions,
          dictContains (index_functions_aux idx results) f.full_name = true ∧
          (f.class_name.isSome = true →
            dictContains (index_functions_aux idx results) f.name = true)) by
    exact h []
  induction results with
  | nil => intro idx; exact ⟨by simp, by simp⟩
  | cons r rest ih =>
    intro idx
    constructor
    · intro r0 hr0 c hc m hm
      simp only [index_functions_aux]
      rcases List.mem_cons.mp hr0 with h1 | h1
      · subst h1
        exact contains_index_functions_aux _ rest _
          (insertClassMethodEntries_contains _ _ _ _ hc hm)
      · exact (ih _).1 r0 h1 c hc m hm
    · intro r0 hr0 f hf
      simp only [index_functions_aux]
      rcases List.mem_cons.mp hr0 with h1 | h1
      · subst h1
        have hbase := insertFunctionEntries_contains idx _ f hf
        exact ⟨contains_index_functions_aux _ rest _
            (contains_insertClassMethodEntries _ _ _ hbase.1),
          fun hs => contains_index_functions_aux _ rest _
            (contains_insertClassMethodEntries _ _ _ (hbase.2 hs))⟩
      · exact (ih _).2 r0 h1 f hf

theorem c4_amended_witness :
    dictContains (index_functions [prC4]) mSigC4.full_name = true :=
  (c4_amended_index_functions_keys [prC4]).1 prC4 (by simp) clsC4
    (by simp [prC4]) mSigC4 (by simp [clsC4])

/-! ### Claim C8 -/

/-- C8: For the structural (Python) extractor, a syntax error or an
unreadable file yields a `ParseResult` whose `errors` list is non-empty
and whose `functions`, `classes` and `exports` lists are empty; and
directory extraction is an append-homomorphism over the file list — each
file is handled independently, so a failing file never aborts processing
of the remaining files. -/
theorem c8_parse_fail_soft (fp msg : String) (files1 files2 : List SourceFile)
    (ex : List String) :
    ((PythonParser.parse_file fp (PySource.syntaxError msg)).errors ≠ [] ∧
      (PythonParser.parse_file fp (PySource.syntaxError msg)).functions = [] ∧
      (PythonParser.parse_file fp (PySource.syntaxError msg)).classes = [] ∧
      (PythonParser.parse_file fp (PySource.syntaxError msg)).exports = []) ∧
    ((PythonParser.parse_file fp (PySource.parseError msg)).errors ≠ [] ∧
      (PythonParser.parse_file fp (PySource.parseError msg)).functions = [] ∧
      (PythonParser.parse_file fp (PySource.parseError msg)).classes = [] ∧
      (PythonParser.parse_file fp (PySource.parseError msg)).exports = []) ∧
    CodeParser.parse_directory (files1 ++ files2) ex =
      CodeParser.parse_directory files1 ex ++ CodeParser.parse_directory files2 ex := by
  refine ⟨⟨?_, rfl, rfl, rfl⟩, ⟨?_, rfl, rfl, rfl⟩, ?_⟩
  · simp [PythonParser.parse_file]
  · simp [PythonParser.parse_file]
  · simp [CodeParser.parse_directory, List.filterMap_append]

theorem c8_witness :
    (PythonParser.parse_file "bad.py" (PySource.syntaxError "invalid syntax")).errors
      ≠ [] ∧
    (PythonParser.parse_file "bad.py" (PySource.syntaxError "invalid syntax")).functions
      = [] := by
  have h := c8_parse_fail_soft "bad.py" "invalid syntax" [] [] []
  exact ⟨h.1.1, h.1.2.1⟩

/-! ### Claim C9 -/

theorem extract_description_go_length (ls : List String) (fuel : Nat)
    (acc : List String) :
    (extract_description_go ls fuel acc).length ≤ acc.length + fuel := by
  induction fuel generalizing ls acc with
  | zero => cases ls <;> simp [extract_description_go]
  | succ n ih =>
    cases ls with
    | nil => simp [extract_description_go]
    | cons l rest =>
      simp only [extract_description_go]
      by_cases h1 : pyStartsWith (pyStrip l) "#" = true
      · rw [if_pos h1]
        omega
      · rw [if_neg h1]
        by_cases h2 : (!(pyStrip l == "") && !pyStartsWith (pyStrip l) "```") = true
        · rw [if_pos h2]
          have := ih rest (acc ++ [pyStrip l])
          simp only [List.length_append, List.length_singleton] at this
          omega
        · rw [if_neg h2]
          by_cases h3 : (!acc.isEmpty) = true
          · rw [if_pos h3]
            omega
          · rw [if_neg h3]
            have := ih rest acc
            omega

theorem extract_description_go_mem (ls : List String) (fuel : Nat)
    (acc : List String) (s : String)
    (h : s ∈ extract_description_go ls fuel acc) :
    s ∈ acc ∨ (s ≠ "" ∧ pyStartsWith s "#" = false ∧ pyStartsWith s "```" = false) := by
  induction fuel generalizing ls acc with
  | zero =>
    cases ls <;> simp [extract_description_go] at h <;> exact Or.inl h
  | succ n ih =>
    cases ls with
    | nil =>
      simp [extract_description_go] at h
      exact Or.inl h
    | cons l rest =>
      simp only [extract_description_go] at h
      by_cases h1 : pyStartsWith (pyStrip l) "#" = true
      · rw [if_pos h1] at h
        exact Or.inl h
      · rw [if_neg h1] at h
        by_cases h2 : (!(pyStrip l == "") && !pyStartsWith (pyStrip l) "```") = true
        · rw [if_pos h2] at h
          rcases ih rest (acc ++ [pyStrip l]) h with hin | hgood
          · rcases List.mem_append.mp hin with ha | hb
            · exact Or.inl ha
            · right
              have hb2 : s = pyStrip l := by simpa using hb
              subst hb2
              simp only [Bool.and_eq_true, Bool.not_eq_true'] at h2
              refine ⟨?_, by simpa using h1, h2.2⟩
              intro hnil
              rw [hnil] at h2
              simp at h2
          · exact Or.inr hgood
        · rw [if_neg h2] at h
          by_cases h3 : acc.isEmpty = false
          · rw [if_pos (by simp_all)] at h
            exact Or.inl h
          · rw [if_neg (by simp_all)] at h
            exact ih rest acc h

theorem dropWhile_length_le {α : Type} (p : α → Bool) (l : List α) :
    (l.dropWhile p).length ≤ l.length := by
  induction l with
  | nil => simp
  | cons a rest ih =>
    rw [List.dropWhile_cons]
    by_cases h : p a = true <;> simp [h] <;> omega

theorem skipBacktick_length_le (l : List Char) :
    (skipBacktick l).length ≤ l.length := by
  cases l with
  | nil => simp [skipBacktick]
  | cons b r =>
    simp only [skipBacktick]
    by_cases h : (b == backquote) = true <;> simp [h]

theorem parenAfter_length (nm : String) (l : List Char) (nr : String × List Char)
    (h : parenAfter nm l = some nr) : nr.2.length < l.length := by
  cases l with
  | nil => simp [parenAfter] at h
  | cons c6 r7 =>
    simp only [parenAfter] at h
    by_cases h6 : (c6 == '(') = true
    · rw [if_pos h6] at h
      injection h with h2
      subst h2
      simp
    · rw [if_neg h6] at h
      cases h

theorem dottedBranch_length (w1 r4 : List Char) (nr : String × List Char)
    (h : dottedBranch w1 r4 = some nr) : nr.2.length < r4.length := by
  cases r4 with
  | nil => simp [dottedBranch] at h
  | cons c5 r5 =>
    simp only [dottedBranch] at h
    by_cases h5 : (c5 == '.') = true
    · rw [if_pos h5] at h
      by_cases hw2 : ((r5.takeWhile isWordChar).isEmpty) = true
      · rw [if_pos hw2] at h
        cases h
      · rw [if_neg hw2] at h
        have hp := parenAfter_length _ _ _ h
        have e1 : ((r5.dropWhile isWordChar).dropWhile pySpace).length
            ≤ (r5.dropWhile isWordChar).length := dropWhile_length_le _ _
        have e2 : (r5.dropWhile isWordChar).length ≤ r5.length :=
          dropWhile_length_le _ _
        simp only [List.length_cons]
        omega
    · rw [if_neg h5] at h
      cases h

theorem nameAndAfterParen_length (w1 r4 : List Char) (nr : String × List Char)
    (h : nameAndAfterParen w1 r4 = some nr) : nr.2.length < r4.length := by
  unfold nameAndAfterParen at h
  cases hdb : dottedBranch w1 r4 with
  | some nr0 =>
    rw [hdb] at h
    have h2 : some nr0 = some nr := h
    injection h2 with h3
    subst h3
    exact dottedBranch_length w1 r4 nr0 hdb
  | none =>
    rw [hdb] at h
    have h2 : parenAfter (String.mk w1) (r4.dropWhile pySpace) = some nr := h
    have hp := parenAfter_length _ _ _ h2
    have e1 : (r4.dropWhile pySpace).length ≤ r4.length := dropWhile_length_le _ _
    omega

theorem closeParen_length (nm args : String) (l : List Char)
    (r : String × String × List Char) (h : closeParen nm args l = some r) :
    r.2.2.length < l.length := by
  cases l with
  | nil => simp [closeParen] at h
  | cons c2 rem =>
    simp only [closeParen] at h
    by_cases h2 : (c2 == ')') = true
    · rw [if_pos h2] at h
      injection h with h3
      subst h3
      have := skipBacktick_length_le rem
      simp only [List.length_cons]
      omega
    · rw [if_neg h2] at h
      cases h

theorem finishArgs_length (nm : String) (afterParen : List Char)
    (r : String × String × List Char) (h : finishArgs nm afterParen = some r) :
    r.2.2.length < afterParen.length + 1 := by
  unfold finishArgs at h
  have hc := closeParen_length _ _ _ _ h
  have e1 : (afterParen.dropWhile (fun ch => !(ch == ')'))).length
      ≤ afterParen.length := dropWhile_length_le _ _
  omega

theorem matchAfterHashes_length (l : List Char) (r : String × String × List Char)
    (h : matchAfterHashes l = some r) : r.2.2.length < l.length := by
  cases l with
  | nil => simp [matchAfterHashes] at h
  | cons c rest1 =>
    simp only [matchAfterHashes] at h
    by_cases hsp : pySpace c = true
    case neg => rw [if_neg hsp] at h; cases h
    case pos =>
    rw [if_pos hsp] at h
    by_cases hw : ((skipBacktick ((c :: rest1).dropWhile pySpace)).takeWhile
        isWordChar).isEmpty = true
    case pos => rw [if_pos hw] at h; cases h
    case neg =>
    rw [if_neg hw] at h
    cases hn : nameAndAfterParen
        ((skipBacktick ((c :: rest1).dropWhile pySpace)).takeWhile isWordChar)
        ((skipBacktick ((c :: rest1).dropWhile pySpace)).dropWhile isWordChar) with
    | none => rw [hn] at h; cases h
    | some nr =>
      rw [hn] at h
      have h2 : finishArgs nr.1 nr.2 = some r := h
      have hfin := finishArgs_length _ _ _ h2
      have hnr := nameAndAfterParen_length _ _ _ hn
      have e1 : ((skipBacktick ((c :: rest1).dropWhile pySpace)).dropWhile
          isWordChar).length
          ≤ (skipBacktick ((c :: rest1).dropWhile pySpace)).length :=
        dropWhile_length_le _ _
      have e2 : (skipBacktick ((c :: rest1).dropWhile pySpace)).length
          ≤ ((c :: rest1).dropWhile pySpace).length := skipBacktick_length_le _
      have e3 : ((c :: rest1).dropWhile pySpace).length ≤ (c :: rest1).length :=
        dropWhile_length_le _ _
      simp only [List.length_cons] at e3 ⊢
      omega

theorem matchFuncAt_shrinks (cs : List Char) (r : String × String × List Char)
    (h : matchFuncAt cs = some r) : r.2.2.length < cs.length := by
  unfold matchFuncAt at h
  by_cases hk : 1 ≤ countLeadingHashes cs ∧ countLeadingHashes cs ≤ 4
  case neg => rw [if_neg hk] at h; cases h
  case pos =>
  rw [if_pos hk] at h
  have hm := matchAfterHashes_length _ _ h
  have hd : (cs.drop (countLeadingHashes cs)).length
      = cs.length - countLeadingHashes cs := List.length_drop _ _
  omega

theorem matchFuncAt_hashes (cs : List Char) (r : String × String × List Char)
    (h : matchFuncAt cs = some r) :
    1 ≤ countLeadingHashes cs ∧ countLeadingHashes cs ≤ 4 := by
  unfold matchFuncAt at h
  by_cases hk : 1 ≤ countLeadingHashes cs ∧ countLeadingHashes cs ≤ 4
  · exact hk
  · rw [if_neg hk] at h
    cases h

theorem matchFuncAt_none_of_level5 (cs : List Char)
    (h : 5 ≤ countLeadingHashes cs) : matchFuncAt cs = none := by
  unfold matchFuncAt
  rw [if_neg]
  omega

theorem scanAux_succ_true (fuel : Nat) (c : Char) (rest : List Char) (ln : Nat) :
    scanAux (fuel + 1) (c :: rest) ln true
      = match matchFuncAt (c :: rest) with
        | some r =>
          (ln + 1, r.1, r.2.1) ::
            scanAux fuel r.2.2
              (ln + (newlineCount (c :: rest) - newlineCount r.2.2)) false
        | none =>
          scanAux fuel rest (if c == '\n' then ln + 1 else ln) (c == '\n') := rfl

theorem scanAux_succ_false (fuel : Nat) (c : Char) (rest : List Char) (ln : Nat) :
    scanAux (fuel + 1) (c :: rest) ln false
      = scanAux fuel rest (if c == '\n' then ln + 1 else ln) (c == '\n') := rfl

/-- Any fuel at least the content length computes the same scan: together
with `matchFuncAt_shrinks` this shows the fuel of `scanFuncHeaders` never
runs out before the content does, so the fueled recursion is exact. -/
theorem scanAux_fuel_congr (f1 f2 : Nat) (cs : List Char) (ln : Nat) (b : Bool)
    (h1 : cs.length ≤ f1) (h2 : cs.length ≤ f2) :
    scanAux f1 cs ln b = scanAux f2 cs ln b := by
  induction f1 generalizing f2 cs ln b with
  | zero =>
    have hnil : cs = [] := List.length_eq_zero.mp (Nat.le_zero.mp h1)
    subst hnil
    cases f2 <;> simp [scanAux]
  | succ f1 ih =>
    cases cs with
    | nil => cases f2 <;> simp [scanAux]
    | cons c rest =>
      cases f2 with
      | zero => simp at h2
      | succ f2 =>
        simp only [List.length_cons] at h1 h2
        cases b with
        | false =>
          rw [scanAux_succ_false, scanAux_succ_false]
          exact ih f2 rest _ _ (by omega) (by omega)
        | true =>
          rw [scanAux_succ_true, scanAux_succ_true]
          cases hm : matchFuncAt (c :: rest) with
          | none =>
            exact ih f2 rest _ _ (by omega) (by omega)
          | some r =>
            have hlen := matchFuncAt_shrinks _ _ hm
            simp only [List.length_cons] at hlen
            exact congrArg _ (ih f2 r.2.2 _ false (by omega) (by omega))

/-! ### Claim C9 (continued): counterexample, amended theorem, witness -/

/-- C9 as stated is false on the code: in `"# weird(\n## good(x)"`, line 2
is a level-2 heading whose text matches the per-line function-heading
shape (`countLeadingHashes` 2, per-line match `good(x)`), yet
`MarkdownParser.parse_file`'s `finditer` pass emits only the item `weird`
at line 1 — the match starting at line 1 consumes line 2 inside its
`[^)]*` argument capture — and no item named `good` or located at line 2
exists. -/
theorem c9_counterexample :
    countLeadingHashes ((splitLines mdCexContent).getD 1 "").data = 2 ∧
    matchFuncHeader ((splitLines mdCexContent).getD 1 "") = some ("good", "x") ∧
    (md_func_items "api.md" mdCexContent).map
        (fun it => (it.name, it.line_number)) = [("weird", 1)] ∧
    (md_func_items "api.md" mdCexContent).all
        (fun it => !(it.name == "good") && !(it.line_number == 2)) = true := by
  refine ⟨by decide, by decide, by decide, by decide⟩

/-- C9, amended to what the code does: the function-heading pattern is
applied to the whole content by the non-overlapping `finditer` scan, whose
whitespace and argument parts may span line breaks; every scan match —
which must begin with one to four leading `#`, so a level-5/6 heading line
never begins one — produces exactly one `DocumentedItem` of `doc_type`
`"function"` named by the captured identifier at the line of the match
start, with the following-lines description; the fueled scanner is exact;
and each collected description line is non-empty, not a heading, not a
fence, at most ten collected. -/
theorem c9_amended_markdown_function_scan (fp : String) (content : String) :
    (∀ e ∈ scanFuncHeaders content.data,
        ∃ item ∈ md_func_items fp content,
          item.name = e.2.1 ∧ item.doc_type = "function" ∧
          item.line_number = e.1 ∧
          item.description = extract_description (splitLines content) e.1) ∧
    (∀ item ∈ md_func_items fp content,
        ∃ e ∈ scanFuncHeaders content.data,
          item.name = e.2.1 ∧ item.doc_type = "function" ∧
          item.line_number = e.1 ∧
          item.description = extract_description (splitLines content) e.1) ∧
    (∀ cs : List Char, 5 ≤ countLeadingHashes cs → matchFuncAt cs = none) ∧
    (∀ (cs : List Char) (r : String × String × List Char),
        matchFuncAt cs = some r →
        1 ≤ countLeadingHashes cs ∧ countLeadingHashes cs ≤ 4) ∧
    (∀ fuel, content.data.length ≤ fuel →
        scanAux fuel content.data 0 true = scanFuncHeaders content.data) ∧
    (∀ start,
        (extract_description_go ((splitLines content).drop start) 10 []).length
          ≤ 10) ∧
    (∀ start s,
        s ∈ extract_description_go ((splitLines content).drop start) 10 [] →
        s ≠ "" ∧ pyStartsWith s "#" = false ∧ pyStartsWith s "```" = false) := by
  refine ⟨?_, ?_, fun cs h => matchFuncAt_none_of_level5 cs h,
    fun cs r h => matchFuncAt_hashes cs r h,
    fun fuel hf => scanAux_fuel_congr fuel content.data.length content.data 0 true
      hf (Nat.le_refl _),
    fun start => by
      simpa using extract_description_go_length ((splitLines content).drop start) 10 [],
    fun start s hs => by
      rcases extract_description_go_mem ((splitLines content).drop start) 10 [] s hs
        with hin | hgood
      · simp at hin
      · exact hgood⟩
  · intro e he
    exact ⟨{ name := e.2.1, filepath := fp, line_number := e.1,
             doc_type := "function",
             description := extract_description (splitLines content) e.1 },
      List.mem_map_of_mem _ he, rfl, rfl, rfl, rfl⟩
  · intro item hitem
    rcases List.mem_map.mp hitem with ⟨e, he, hge⟩
    refine ⟨e, he, ?_, ?_, ?_, ?_⟩ <;> rw [← hge]

theorem c9_witness :
    (1, "foo", "a, b") ∈ scanFuncHeaders mdContentEx.data ∧
    ∃ item ∈ md_func_items "api.md" mdContentEx,
      item.name = "foo" ∧ item.doc_type = "function" ∧
      item.line_number = 1 ∧
      item.description = extract_description (splitLines mdContentEx) 1 := by
  refine ⟨by decide, ?_⟩
  have h := (c9_amended_markdown_function_scan "api.md" mdContentEx).1
    (1, "foo", "a, b") (by decide)
  simpa using h

/-! ### Structure of the compare loops -/

theorem funcLoop_fst (cfg : ComparatorConfig) (di : Dict DocumentedItem)
    (entries : List (String × FunctionSignature))
    (acc : List DriftIssue × List String) :
    (funcLoop cfg di entries acc).1 = acc.1 ++ funcIssuesOf cfg di entries := by
  induction entries generalizing acc with
  | nil => simp [funcLoop, funcIssuesOf, issuesOfEntries]
  | cons e rest ih =>
    obtain ⟨n, f⟩ := e
    simp only [funcLoop, funcIssuesOf, issuesOfEntries]
    rw [ih]
    simp [funcIssuesOf, List.append_assoc]

theorem funcLoop_snd (cfg : ComparatorConfig) (di : Dict DocumentedItem)
    (entries : List (String × FunctionSignature))
    (acc : List DriftIssue × List String) :
    (funcLoop cfg di entries acc).2 = funcMatchedOf cfg di entries acc.2 := by
  induction entries generalizing acc with
  | nil => simp [funcLoop, funcMatchedOf]
  | cons e rest ih =>
    obtain ⟨n, f⟩ := e
    simp only [funcLoop, funcMatchedOf]
    rw [ih]

theorem classLoop_fst (cfg : ComparatorConfig) (di : Dict DocumentedItem)
    (entries : List (String × ClassSignature))
    (acc : List DriftIssue × List String) :
    (classLoop cfg di entries acc).1 = acc.1 ++ classIssuesOf cfg di entries := by
  induction entries generalizing acc with
  | nil => simp [classLoop, classIssuesOf, issuesOfEntries]
  | cons e rest ih =>
    obtain ⟨n, c⟩ := e
    simp only [classLoop, classIssuesOf, issuesOfEntries]
    rw [ih]
    simp [classIssuesOf, List.append_assoc]

theorem classLoop_snd (cfg : ComparatorConfig) (di : Dict DocumentedItem)
    (entries : List (String × ClassSignature))
    (acc : List DriftIssue × List String) :
    (classLoop cfg di entries acc).2 = classMatchedOf cfg di entries acc.2 := by
  induction entries generalizing acc with
  | nil => simp [classLoop, classMatchedOf]
  | cons e rest ih =>
    obtain ⟨n, c⟩ := e
    simp only [classLoop, classMatchedOf]
    rw [ih]

theorem docLoop_eq (cf : Dict FunctionSignature) (cc : Dict ClassSignature)
    (m : List String) (entries : List (String × DocumentedItem))
    (issues : List DriftIssue) :
    docLoop cf cc m entries issues = issues ++ docIssuesOf cf cc m entries := by
  induction entries generalizing issues with
  | nil => simp [docLoop, docIssuesOf, issuesOfEntries]
  | cons e rest ih =>
    obtain ⟨n, it⟩ := e
    simp only [docLoop, docIssuesOf, issuesOfEntries]
    rw [ih]
    simp [docIssuesOf, List.append_assoc]

theorem matched_docs_of_eq (cfg : ComparatorConfig) (cr : List ParseResult)
    (dr : List DocParseResult) :
    matched_docs_of cfg cr dr =
      classMatchedOf cfg (index_doc_items dr) (index_classes cr)
        (funcMatchedOf cfg (index_doc_items dr) (index_functions cr) []) := by
  unfold matched_docs_of loops12
  rw [classLoop_snd, funcLoop_snd]

theorem compare_issues_eq (cfg : ComparatorConfig) (cr : List ParseResult)
    (dr : List DocParseResult) :
    (compare cfg cr dr).issues =
      funcIssuesOf cfg (index_doc_items dr) (index_functions cr)
        ++ classIssuesOf cfg (index_doc_items dr) (index_classes cr)
        ++ docIssuesOf (index_functions cr) (index_classes cr)
            (matched_docs_of cfg cr dr) (index_doc_items dr) := by
  show docLoop (index_functions cr) (index_classes cr)
      (loops12 cfg (index_doc_items dr) (index_functions cr) (index_classes cr)).2
      (index_doc_items dr)
      (loops12 cfg (index_doc_items dr) (index_functions cr) (index_classes cr)).1
    = _
  rw [docLoop_eq]
  unfold loops12
  rw [classLoop_fst, funcLoop_fst, classLoop_snd, funcLoop_snd, matched_docs_of_eq]
  rfl

/-! ### Doc-index invariants and matched-set facts -/

theorem findSome?_mem {α β : Type} (f : α → Option β) (l : List α) (b : β)
    (h : l.findSome? f = some b) : ∃ a ∈ l, f a = some b := by
  induction l with
  | nil => simp [List.findSome?] at h
  | cons a rest ih =>
    have hcons : List.findSome? f (a :: rest)
        = match f a with
          | some b0 => some b0
          | none => List.findSome? f rest := rfl
    rw [hcons] at h
    cases hf : f a with
    | some b0 =>
      rw [hf] at h
      have h2 : some b0 = some b := h
      injection h2 with h3
      exact ⟨a, List.mem_cons_self _ _, by rw [hf, h3]⟩
    | none =>
      rw [hf] at h
      have h2 : List.findSome? f rest = some b := h
      rcases ih h2 with ⟨a0, ha0, hfa0⟩
      exact ⟨a0, List.mem_cons_of_mem _ ha0, hfa0⟩

theorem find_doc_item_mem (di : Dict DocumentedItem) (n : String)
    (it : DocumentedItem) (h : find_doc_item di n = some it) :
    ∃ k, (k, it) ∈ di := by
  unfold find_doc_item at h
  cases h1 : dictLookup di n with
  | some it0 =>
    rw [h1] at h
    simp only [Option.some.injEq] at h
    subst h
    exact ⟨n, dictLookup_mem _ _ _ h1⟩
  | none =>
    rw [h1] at h
    cases h2 : (if hasDot n then dictLookup di (afterLastDot n) else none) with
    | some it0 =>
      rw [h2] at h
      simp only [Option.some.injEq] at h
      subst h
      by_cases hd : hasDot n = true
      · rw [if_pos hd] at h2
        exact ⟨afterLastDot n, dictLookup_mem _ _ _ h2⟩
      · rw [if_neg hd] at h2
        cases h2
    | none =>
      rw [h2] at h
      rcases findSome?_mem _ _ _ h with ⟨⟨k, v⟩, hkv, hf⟩
      by_cases hl : (pyLower k == pyLower n) = true
      · rw [if_pos hl] at hf
        simp only [Option.some.injEq] at hf
        subst hf
        exact ⟨k, hkv⟩
      · rw [if_neg hl] at hf
        cases hf

theorem mem_dictInsert_pred {α : Type} (P : String × α → Prop) (d : Dict α)
    (k : String) (v : α) (hd : ∀ kv ∈ d, P kv) (hkv : P (k, v)) :
    ∀ kv ∈ dictInsert d k v, P kv := by
  induction d with
  | nil => simpa [dictInsert] using hkv
  | cons e rest ih =>
    obtain ⟨k0, v0⟩ := e
    intro kv hmem
    by_cases h0 : k0 = k
    · subst h0
      simp only [dictInsert, beq_self_eq_true, if_true] at hmem
      rcases List.mem_cons.mp hmem with h1 | h1
      · subst h1; exact hkv
      · exact hd kv (List.mem_cons_of_mem _ h1)
    · simp only [dictInsert, beq_iff_eq, h0, if_false] at hmem
      rcases List.mem_cons.mp hmem with h1 | h1
      · subst h1
        exact hd (k0, v0) (List.mem_cons_self _ _)
      · exact ih (fun kv2 h2 => hd kv2 (List.mem_cons_of_mem _ h2)) kv h1

theorem index_doc_items_name_eq_key (dr : List DocParseResult) :
    ∀ kv ∈ index_doc_items dr, (kv.2 : DocumentedItem).name = kv.1 := by
  suffices h : ∀ (rs : List DocParseResult) (idx : Dict DocumentedItem),
      (∀ kv ∈ idx, (kv.2 : DocumentedItem).name = kv.1) →
      ∀ kv ∈ index_doc_items_aux idx rs, (kv.2 : DocumentedItem).name = kv.1 by
    exact h dr [] (by simp)
  intro rs
  induction rs with
  | nil => intro idx hidx; simpa [index_doc_items_aux] using hidx
  | cons r rest ih =>
    intro idx hidx
    simp only [index_doc_items_aux]
    refine ih _ ?_
    suffices hfold : ∀ (its : List DocumentedItem) (d : Dict DocumentedItem),
        (∀ kv ∈ d, (kv.2 : DocumentedItem).name = kv.1) →
        ∀ kv ∈ its.foldl (fun d it => dictInsert d it.name it) d,
          (kv.2 : DocumentedItem).name = kv.1 by
      exact hfold r.items idx hidx
    intro its
    induction its with
    | nil => intro d hd; simpa using hd
    | cons it rest2 ih2 =>
      intro d hd
      simp only [List.foldl_cons]
      exact ih2 _ (mem_dictInsert_pred _ _ _ _ hd rfl)

theorem func_step_snd_some (cfg : ComparatorConfig) (di : Dict DocumentedItem)
    (n : String) (f : FunctionSignature) (x : String)
    (h : (func_step cfg di n f).2 = some x) :
    ∃ it, find_doc_item di n = some it ∧ x = it.name := by
  unfold func_step at h
  by_cases hig : should_ignore cfg.ignore_patterns n = true
  · rw [if_pos hig] at h
    cases h
  · rw [if_neg hig] at h
    cases hf : find_doc_item di n with
    | some it =>
      rw [hf] at h
      have h2 : some it.name = some x := h
      injection h2 with h3
      exact ⟨it, rfl, h3.symm⟩
    | none =>
      rw [hf] at h
      by_cases hb : (optStrFalsy f.docstring && cfg.require_docstrings) = true
      · rw [if_pos hb] at h
        cases h
      · rw [if_neg hb] at h
        cases h

theorem class_step_snd_some (cfg : ComparatorConfig) (di : Dict DocumentedItem)
    (n : String) (c : ClassSignature) (x : String)
    (h : (class_step cfg di n c).2 = some x) :
    ∃ it, find_doc_item di n = some it ∧ x = it.name := by
  unfold class_step at h
  by_cases hig : should_ignore cfg.ignore_patterns n = true
  · rw [if_pos hig] at h
    cases h
  · rw [if_neg hig] at h
    cases hf : find_doc_item di n with
    | some it =>
      rw [hf] at h
      have h2 : some it.name = some x := h
      injection h2 with h3
      exact ⟨it, rfl, h3.symm⟩
    | none =>
      rw [hf] at h
      by_cases hb : (optStrFalsy c.docstring && cfg.require_docstrings) = true
      · rw [if_pos hb] at h
        cases h
      · rw [if_neg hb] at h
        cases h

theorem dictContains_of_mem {α : Type} (d : Dict α) (k : String) (v : α)
    (h : (k, v) ∈ d) : dictContains d k = true := by
  induction d with
  | nil => simp at h
  | cons e rest ih =>
    obtain ⟨k0, v0⟩ := e
    rcases List.mem_cons.mp h with h1 | h1
    · injection h1 with hk hv
      subst hk
      simp [dictContains, dictLookup]
    · by_cases h0 : k0 = k
      · simp [dictContains, dictLookup, h0]
      · simpa [dictContains, dictLookup, h0] using ih h1

theorem funcMatchedOf_nodup (cfg : ComparatorConfig) (di : Dict DocumentedItem)
    (entries : List (String × FunctionSignature)) (m : List String)
    (hm : m.Nodup) : (funcMatchedOf cfg di entries m).Nodup := by
  induction entries generalizing m with
  | nil => simpa [funcMatchedOf] using hm
  | cons e rest ih =>
    obtain ⟨n, f⟩ := e
    simp only [funcMatchedOf]
    cases (func_step cfg di n f).2 with
    | some x => exact ih _ (setAdd_nodup _ _ hm)
    | none => exact ih _ hm

theorem classMatchedOf_nodup (cfg : ComparatorConfig) (di : Dict DocumentedItem)
    (entries : List (String × ClassSignature)) (m : List String)
    (hm : m.Nodup) : (classMatchedOf cfg di entries m).Nodup := by
  induction entries generalizing m with
  | nil => simpa [classMatchedOf] using hm
  | cons e rest ih =>
    obtain ⟨n, c⟩ := e
    simp only [classMatchedOf]
    cases (class_step cfg di n c).2 with
    | some x => exact ih _ (setAdd_nodup _ _ hm)
    | none => exact ih _ hm

theorem funcMatchedOf_length (cfg : ComparatorConfig) (di : Dict DocumentedItem)
    (entries : List (String × FunctionSignature)) (m : List String) :
    (funcMatchedOf cfg di entries m).length ≤ m.length + entries.length := by
  induction entries generalizing m with
  | nil => simp [funcMatchedOf]
  | cons e rest ih =>
    obtain ⟨n, f⟩ := e
    simp only [funcMatchedOf]
    cases (func_step cfg di n f).2 with
    | some x =>
      have h1 := ih (setAdd m x)
      have h2 := setAdd_length_le m x
      simp only [List.length_cons]
      omega
    | none =>
      have h1 := ih m
      simp only [List.length_cons]
      omega

theorem classMatchedOf_length (cfg : ComparatorConfig) (di : Dict DocumentedItem)
    (entries : List (String × ClassSignature)) (m : List String) :
    (classMatchedOf cfg di entries m).length ≤ m.length + entries.length := by
  induction entries generalizing m with
  | nil => simp [classMatchedOf]
  | cons e rest ih =>
    obtain ⟨n, c⟩ := e
    simp only [classMatchedOf]
    cases (class_step cfg di n c).2 with
    | some x =>
      have h1 := ih (setAdd m x)
      have h2 := setAdd_length_le m x
      simp only [List.length_cons]
      omega
    | none =>
      have h1 := ih m
      simp only [List.length_cons]
      omega

theorem funcMatchedOf_in_docs (cfg : ComparatorConfig) (di : Dict DocumentedItem)
    (hinv : ∀ kv ∈ di, (kv.2 : DocumentedItem).name = kv.1)
    (entries : List (String × FunctionSignature)) (m : List String)
    (hm : ∀ x ∈ m, dictContains di x = true) :
    ∀ x ∈ funcMatchedOf cfg di entries m, dictContains di x = true := by
  induction entries generalizing m with
  | nil => simpa [funcMatchedOf] using hm
  | cons e rest ih =>
    obtain ⟨n, f⟩ := e
    simp only [funcMatchedOf]
    cases hs : (func_step cfg di n f).2 with
    | some x =>
      refine ih (setAdd m x) ?_
      intro y hy
      rcases mem_setAdd m x y hy with rfl | hy2
      · rcases func_step_snd_some cfg di n f y hs with ⟨it, hfind, hx⟩
        rcases find_doc_item_mem di n it hfind with ⟨k, hk⟩
        have hik : it.name = k := hinv (k, it) hk
        rw [hx, hik]
        exact dictContains_of_mem _ _ _ hk
      · exact hm y hy2
    | none => exact ih m hm

theorem classMatchedOf_in_docs (cfg : ComparatorConfig) (di : Dict DocumentedItem)
    (hinv : ∀ kv ∈ di, (kv.2 : DocumentedItem).name = kv.1)
    (entries : List (String × ClassSignature)) (m : List String)
    (hm : ∀ x ∈ m, dictContains di x = true) :
    ∀ x ∈ classMatchedOf cfg di entries m, dictContains di x = true := by
  induction entries generalizing m with
  | nil => simpa [classMatchedOf] using hm
  | cons e rest ih =>
    obtain ⟨n, c⟩ := e
    simp only [classMatchedOf]
    cases hs : (class_step cfg di n c).2 with
    | some x =>
      refine ih (setAdd m x) ?_
      intro y hy
      rcases mem_setAdd m x y hy with rfl | hy2
      · rcases class_step_snd_some cfg di n c y hs with ⟨it, hfind, hx⟩
        rcases find_doc_item_mem di n it hfind with ⟨k, hk⟩
        have hik : it.name = k := hinv (k, it) hk
        rw [hx, hik]
        exact dictContains_of_mem _ _ _ hk
      · exact hm y hy2
    | none => exact ih m hm

theorem nodup_subset_length_le {α : Type} [DecidableEq α] (l1 l2 : List α)
    (h1 : l1.Nodup) (hsub : ∀ x ∈ l1, x ∈ l2) : l1.length ≤ l2.length := by
  calc l1.length = l1.toFinset.card := (List.toFinset_card_of_nodup h1).symm
    _ ≤ l2.toFinset.card := Finset.card_le_card (fun x hx =>
        List.mem_toFinset.mpr (hsub x (List.mem_toFinset.mp hx)))
    _ ≤ l2.length := List.toFinset_card_le l2

theorem dictContains_mem_keys {α : Type} (d : Dict α) (k : String)
    (h : dictContains d k = true) : k ∈ dictKeys d := by
  induction d with
  | nil => simp [dictContains, dictLookup] at h
  | cons e rest ih =>
    obtain ⟨k0, v0⟩ := e
    by_cases h0 : k0 = k
    · subst h0
      simp [dictKeys]
    · simp only [dictContains, dictLookup, beq_iff_eq, h0, if_false] at h
      simp only [dictKeys, List.map_cons, List.mem_cons]
      exact Or.inr (ih h)

/-! ### Issue characterization per loop step -/

theorem check_function_drift_mem (cfg : ComparatorConfig)
    (f : FunctionSignature) (it : DocumentedItem) :
    ∀ i ∈ check_function_drift cfg f it,
      i.drift_type = DriftType.parameter_mismatch ∨
      i.drift_type = DriftType.missing_deprecation_notice := by
  intro i hi
  simp only [check_function_drift] at hi
  rcases List.mem_append.mp hi with h | h
  · split at h
    · rcases List.mem_append.mp h with h2 | h2
      · split at h2
        · rcases List.mem_singleton.mp h2 with rfl
          left; rfl
        · simp at h2
      · split at h2
        · rcases List.mem_singleton.mp h2 with rfl
          left; rfl
        · simp at h2
    · simp at h
  · split at h
    · rcases List.mem_singleton.mp h with rfl
      right; rfl
    · simp at h

theorem check_class_drift_mem (c : ClassSignature) (it : DocumentedItem) :
    ∀ i ∈ check_class_drift c it,
      i.drift_type = DriftType.missing_deprecation_notice := by
  intro i hi
  simp only [check_class_drift] at hi
  split at hi
  · rcases List.mem_singleton.mp hi with rfl
    rfl
  · simp at hi

theorem func_step_mem (cfg : ComparatorConfig) (di : Dict DocumentedItem)
    (k : String) (f : FunctionSignature) :
    ∀ i ∈ (func_step cfg di k f).1,
      i.drift_type = DriftType.parameter_mismatch ∨
      i.drift_type = DriftType.missing_deprecation_notice ∨
      (i.drift_type = DriftType.undocumented_function ∧ i.item_name = k ∧
        i.severity = get_severity_for_undocumented f) := by
  intro i hi
  unfold func_step at hi
  by_cases hig : should_ignore cfg.ignore_patterns k = true
  · rw [if_pos hig] at hi
    simp at hi
  · rw [if_neg hig] at hi
    cases hf : find_doc_item di k with
    | some it =>
      rw [hf] at hi
      have hi2 : i ∈ check_function_drift cfg f it := hi
      rcases check_function_drift_mem cfg f it i hi2 with h | h
      · exact Or.inl h
      · exact Or.inr (Or.inl h)
    | none =>
      rw [hf] at hi
      by_cases hb : (optStrFalsy f.docstring && cfg.require_docstrings) = true
      · rw [if_pos hb] at hi
        have hi2 := List.mem_singleton.mp hi
        subst hi2
        exact Or.inr (Or.inr ⟨rfl, rfl, rfl⟩)
      · rw [if_neg hb] at hi
        simp at hi

theorem class_step_mem (cfg : ComparatorConfig) (di : Dict DocumentedItem)
    (k : String) (c : ClassSignature) :
    ∀ i ∈ (class_step cfg di k c).1,
      i.drift_type = DriftType.undocumented_class ∨
      i.drift_type = DriftType.missing_deprecation_notice := by
  intro i hi
  unfold class_step at hi
  by_cases hig : should_ignore cfg.ignore_patterns k = true
  · rw [if_pos hig] at hi
    simp at hi
  · rw [if_neg hig] at hi
    cases hf : find_doc_item di k with
    | some it =>
      rw [hf] at hi
      have hi2 : i ∈ check_class_drift c it := hi
      exact Or.inr (check_class_drift_mem c it i hi2)
    | none =>
      rw [hf] at hi
      by_cases hb : (optStrFalsy c.docstring && cfg.require_docstrings) = true
      · rw [if_pos hb] at hi
        have hi2 := List.mem_singleton.mp hi
        subst hi2
        exact Or.inl rfl
      · rw [if_neg hb] at hi
        simp at hi

theorem doc_step_mem (cf : Dict FunctionSignature) (cc : Dict ClassSignature)
    (m : List String) (k : String) (it : DocumentedItem) :
    ∀ i ∈ doc_step cf cc m k it,
      i.drift_type = DriftType.missing_from_code ∧
      i.severity = DriftSeverity.critical ∧ i.item_name = k := by
  intro i hi
  unfold doc_step at hi
  split at hi
  · simp at hi
  · split at hi
    · simp at hi
    · split at hi
      · simp at hi
      · split at hi
        · simp at hi
        · have hi2 := List.mem_singleton.mp hi
          subst hi2
          exact ⟨rfl, rfl, rfl⟩

/-! ### Counting issues over loop entries -/

theorem mem_issuesOfEntries {beta : Type} (step : String → beta → List DriftIssue)
    (entries : List (String × beta)) (i : DriftIssue)
    (h : i ∈ issuesOfEntries step entries) :
    ∃ e ∈ entries, i ∈ step e.1 e.2 := by
  induction entries with
  | nil => simp [issuesOfEntries] at h
  | cons e rest ih =>
    obtain ⟨n, b⟩ := e
    simp only [issuesOfEntries] at h
    rcases List.mem_append.mp h with h1 | h1
    · exact ⟨(n, b), List.mem_cons_self _ _, h1⟩
    · rcases ih h1 with ⟨e0, he0, hi0⟩
      exact ⟨e0, List.mem_cons_of_mem _ he0, hi0⟩

theorem countIssues_eq_zero (l : List DriftIssue) (t : DriftType) (n : String)
    (h : ∀ i ∈ l, ¬(i.drift_type = t ∧ i.item_name = n)) :
    countIssues l t n = 0 := by
  induction l with
  | nil => rfl
  | cons a rest ih =>
    have ha := h a (List.mem_cons_self _ _)
    have hpa : (a.drift_type == t && a.item_name == n) = false := by
      by_cases h1 : a.drift_type = t
      · by_cases h2 : a.item_name = n
        · exact absurd ⟨h1, h2⟩ ha
        · simp [h1, h2]
      · simp [h1]
    unfold countIssues
    rw [List.filter_cons, hpa]
    exact ih (fun i hi => h i (List.mem_cons_of_mem _ hi))

theorem countIssues_issuesOfEntries_zero {beta : Type}
    (step : String → beta → List DriftIssue) (entries : List (String × beta))
    (t : DriftType) (n : String)
    (h : ∀ e ∈ entries, ∀ i ∈ step e.1 e.2, ¬(i.drift_type = t ∧ i.item_name = n)) :
    countIssues (issuesOfEntries step entries) t n = 0 := by
  refine countIssues_eq_zero _ _ _ (fun i hi => ?_)
  rcases mem_issuesOfEntries step entries i hi with ⟨e, he, hie⟩
  exact h e he i hie

theorem countIssues_issuesOfEntries_localize {beta : Type}
    (step : String → beta → List DriftIssue) (entries : List (String × beta))
    (t : DriftType) (n : String) (v : beta)
    (hnd : (entries.map Prod.fst).Nodup) (hmem : (n, v) ∈ entries)
    (hother : ∀ k b, k ≠ n → ∀ i ∈ step k b, ¬(i.drift_type = t ∧ i.item_name = n)) :
    countIssues (issuesOfEntries step entries) t n = countIssues (step n v) t n := by
  induction entries with
  | nil => simp at hmem
  | cons e rest ih =>
    obtain ⟨k0, v0⟩ := e
    simp only [issuesOfEntries]
    rw [countIssues_append]
    simp only [List.map_cons, List.nodup_cons] at hnd
    by_cases hk : n = k0
    · subst hk
      have hv : v0 = v := by
        rcases List.mem_cons.mp hmem with h1 | h1
        · injection h1 with _ h2
          exact h2.symm
        · exact absurd (List.mem_map_of_mem Prod.fst h1) hnd.1
      subst hv
      have hzero : countIssues (issuesOfEntries step rest) t n = 0 := by
        refine countIssues_issuesOfEntries_zero step rest t n ?_
        intro e2 he2 i hi
        have hne : e2.1 ≠ n := by
          intro hh
          apply hnd.1
          rw [← hh]
          exact List.mem_map_of_mem Prod.fst he2
        exact hother e2.1 e2.2 hne i hi
      rw [hzero]
      omega
    · have hmem2 : (n, v) ∈ rest := by
        rcases List.mem_cons.mp hmem with h1 | h1
        · injection h1 with h2 _
          exact absurd h2 hk
        · exact h1
      have hzero : countIssues (step k0 v0) t n = 0 :=
        countIssues_eq_zero _ _ _ (fun i hi => hother k0 v0 (Ne.symm hk) i hi)
      rw [hzero, ih hnd.2 hmem2]
      omega

/-! ### Distinct keys of the indices -/

theorem keys_nodup_insertFunctionEntries (idx : Dict FunctionSignature)
    (fs : List FunctionSignature) (h : (dictKeys idx).Nodup) :
    (dictKeys (insertFunctionEntries idx fs)).Nodup := by
  induction fs generalizing idx with
  | nil => exact h
  | cons f rest ih =>
    simp only [insertFunctionEntries]
    cases hcn : f.class_name <;> simp only
    · exact ih _ (dictKeys_nodup_insert _ _ _ h)
    · exact ih _ (dictKeys_nodup_insert _ _ _ (dictKeys_nodup_insert _ _ _ h))

theorem keys_nodup_insertMethodEntries (idx : Dict FunctionSignature)
    (ms : List FunctionSignature) (h : (dictKeys idx).Nodup) :
    (dictKeys (insertMethodEntries idx ms)).Nodup := by
  induction ms generalizing idx with
  | nil => exact h
  | cons m rest ih =>
    exact ih _ (dictKeys_nodup_insert _ _ _ h)

theorem keys_nodup_insertClassMethodEntries (idx : Dict FunctionSignature)
    (cs : List ClassSignature) (h : (dictKeys idx).Nodup) :
    (dictKeys (insertClassMethodEntries idx cs)).Nodup := by
  induction cs generalizing idx with
  | nil => exact h
  | cons c rest ih =>
    exact ih _ (keys_nodup_insertMethodEntries _ _ h)

theorem index_functions_keys_nodup (cr : List ParseResult) :
    (dictKeys (index_functions cr)).Nodup := by
  suffices h : ∀ (rs : List ParseResult) (idx : Dict FunctionSignature),
      (dictKeys idx).Nodup → (dictKeys (index_functions_aux idx rs)).Nodup by
    exact h cr [] (by simp [dictKeys])
  intro rs
  induction rs with
  | nil => intro idx h; exact h
  | cons r rest ih =>
    intro idx h
    exact ih _ (keys_nodup_insertClassMethodEntries _ _
      (keys_nodup_insertFunctionEntries _ _ h))

theorem keys_nodup_foldl_insert {α β : Type} (key : β → String) (val : β → α)
    (l : List β) (d : Dict α) (h : (dictKeys d).Nodup) :
    (dictKeys (l.foldl (fun d b => dictInsert d (key b) (val b)) d)).Nodup := by
  induction l generalizing d with
  | nil => exact h
  | cons b rest ih =>
    simp only [List.foldl_cons]
    exact ih _ (dictKeys_nodup_insert _ _ _ h)

theorem index_classes_keys_nodup (cr : List ParseResult) :
    (dictKeys (index_classes cr)).Nodup := by
  suffices h : ∀ (rs : List ParseResult) (idx : Dict ClassSignature),
      (dictKeys idx).Nodup → (dictKeys (index_classes_aux idx rs)).Nodup by
    exact h cr [] (by simp [dictKeys])
  intro rs
  induction rs with
  | nil => intro idx h; exact h
  | cons r rest ih =>
    intro idx h
    exact ih _ (keys_nodup_foldl_insert (fun c => c.name) (fun c => c) r.classes idx h)

theorem index_doc_items_keys_nodup (dr : List DocParseResult) :
    (dictKeys (index_doc_items dr)).Nodup := by
  suffices h : ∀ (rs : List DocParseResult) (idx : Dict DocumentedItem),
      (dictKeys idx).Nodup → (dictKeys (index_doc_items_aux idx rs)).Nodup by
    exact h dr [] (by simp [dictKeys])
  intro rs
  induction rs with
  | nil => intro idx h; exact h
  | cons r rest ih =>
    intro idx h
    exact ih _ (keys_nodup_foldl_insert (fun it => it.name) (fun it => it) r.items idx h)

/-! ### Per-step count evaluation -/

theorem get_severity_rule (f : FunctionSignature) :
    get_severity_for_undocumented f =
      (if pyStartsWith f.name "_" then DriftSeverity.info
       else if f.decorators.any
           (fun d => pyIn "api" (pyLower d) || pyIn "public" (pyLower d))
         then DriftSeverity.critical
         else DriftSeverity.warning) := by
  unfold get_severity_for_undocumented
  cases hb : pyStartsWith f.name "_" <;> simp [hb]

theorem func_step_count_undoc (cfg : ComparatorConfig) (di : Dict DocumentedItem)
    (n : String) (func : FunctionSignature)
    (hig : should_ignore cfg.ignore_patterns n = false)
    (hfind : find_doc_item di n = none) :
    countIssues (func_step cfg di n func).1 DriftType.undocumented_function n
      = (if optStrFalsy func.docstring && cfg.require_docstrings then 1 else 0) := by
  unfold func_step
  rw [if_neg (by simp [hig]), hfind]
  by_cases hb : (optStrFalsy func.docstring && cfg.require_docstrings) = true
  · rw [if_pos hb, if_pos hb]
    simp [countIssues, List.filter]
  · rw [if_neg hb, if_neg hb]
    rfl

theorem doc_step_count (cf : Dict FunctionSignature) (cc : Dict ClassSignature)
    (m : List String) (n : String) (item : DocumentedItem) (hnm : n ∉ m) :
    countIssues (doc_step cf cc m n item) DriftType.missing_from_code n
      = (if !dictContains cf n && !dictContains cc n && !is_external_reference item
         then 1 else 0) := by
  unfold doc_step
  rw [if_neg hnm]
  cases h1 : dictContains cf n <;> cases h2 : dictContains cc n <;>
    cases h3 : is_external_reference item <;>
      simp [h1, h2, h3, countIssues, List.filter]

/-! ### Claim C6 -/

/-- C6: For every non-ignored code function (an entry of the function index)
matching no doc item, exactly one `UNDOCUMENTED_FUNCTION` issue named after
it is emitted iff it has no docstring and `require_docstrings` is set; any
such issue carries severity INFO when the name starts with `_`, CRITICAL
when it does not and some decorator text contains `api` or `public`
case-insensitively, and WARNING otherwise. -/
theorem c6_undocumented_function (cfg : ComparatorConfig) (cr : List ParseResult)
    (dr : List DocParseResult) (n : String) (func : FunctionSignature)
    (hf : dictLookup (index_functions cr) n = some func)
    (hig : should_ignore cfg.ignore_patterns n = false)
    (hfind : find_doc_item (index_doc_items dr) n = none) :
    countIssues (compare cfg cr dr).issues DriftType.undocumented_function n
      = (if optStrFalsy func.docstring && cfg.require_docstrings then 1 else 0) ∧
    ∀ i ∈ (compare cfg cr dr).issues,
      i.drift_type = DriftType.undocumented_function → i.item_name = n →
      i.severity =
        (if pyStartsWith func.name "_" then DriftSeverity.info
         else if func.decorators.any
             (fun d => pyIn "api" (pyLower d) || pyIn "public" (pyLower d))
           then DriftSeverity.critical
           else DriftSeverity.warning) := by
  have hkeys : ((index_functions cr).map Prod.fst).Nodup :=
    index_functions_keys_nodup cr
  have hmem : (n, func) ∈ index_functions cr := dictLookup_mem _ _ _ hf
  have hother : ∀ k b, k ≠ n →
      ∀ i ∈ (func_step cfg (index_doc_items dr) k b).1,
        ¬(i.drift_type = DriftType.undocumented_function ∧ i.item_name = n) := by
    intro k b hk i hi hcontra
    rcases func_step_mem cfg (index_doc_items dr) k b i hi with h | h | h
    · rw [hcontra.1] at h
      cases h
    · rw [hcontra.1] at h
      cases h
    · exact hk (h.2.1 ▸ hcontra.2)
  constructor
  · rw [compare_issues_eq, countIssues_append, countIssues_append]
    have hfunc : countIssues
        (funcIssuesOf cfg (index_doc_items dr) (index_functions cr))
        DriftType.undocumented_function n
        = countIssues (func_step cfg (index_doc_items dr) n func).1
            DriftType.undocumented_function n :=
      countIssues_issuesOfEntries_localize _ _ _ _ func hkeys hmem hother
    have hclass : countIssues
        (classIssuesOf cfg (index_doc_items dr) (index_classes cr))
        DriftType.undocumented_function n = 0 := by
      refine countIssues_issuesOfEntries_zero _ _ _ _ ?_
      intro e he i hi hcontra
      rcases class_step_mem cfg (index_doc_items dr) e.1 e.2 i hi with h | h <;>
        · rw [hcontra.1] at h
          cases h
    have hdoc : countIssues
        (docIssuesOf (index_functions cr) (index_classes cr)
          (matched_docs_of cfg cr dr) (index_doc_items dr))
        DriftType.undocumented_function n = 0 := by
      refine countIssues_issuesOfEntries_zero _ _ _ _ ?_
      intro e he i hi hcontra
      have h := (doc_step_mem _ _ _ e.1 e.2 i hi).1
      rw [hcontra.1] at h
      cases h
    rw [hfunc, hclass, hdoc,
      func_step_count_undoc cfg (index_doc_items dr) n func hig hfind]
    omega
  · intro i hi hti hni
    rw [compare_issues_eq] at hi
    rcases List.mem_append.mp hi with hi1 | hi2
    · rcases List.mem_append.mp hi1 with hi3 | hi3
      · rcases mem_issuesOfEntries _ _ _ hi3 with ⟨e, he, hie⟩
        rcases func_step_mem cfg (index_doc_items dr) e.1 e.2 i hie with h | h | h
        · rw [hti] at h
          cases h
        · rw [hti] at h
          cases h
        · have hkey : e.1 = n := h.2.1 ▸ hni
          have he2 : (n, e.2) ∈ index_functions cr := by
            rw [← hkey]
            exact he
          have hlook := mem_dictLookup _ _ _ hkeys he2
          rw [hf] at hlook
          injection hlook with hfe
          rw [h.2.2, ← hfe, get_severity_rule]
      · rcases mem_issuesOfEntries _ _ _ hi3 with ⟨e, he, hie⟩
        rcases class_step_mem cfg (index_doc_items dr) e.1 e.2 i hie with h | h <;>
          · rw [hti] at h
            cases h
    · rcases mem_issuesOfEntries _ _ _ hi2 with ⟨e, he, hie⟩
      have h := (doc_step_mem _ _ _ e.1 e.2 i hie).1
      rw [hti] at h
      cases h

theorem c6_witness :
    dictLookup (index_functions crScB) "undocumented_func" = some funcScB ∧
    should_ignore ({} : ComparatorConfig).ignore_patterns "undocumented_func" = false ∧
    find_doc_item (index_doc_items drScB) "undocumented_func" = none ∧
    countIssues (compare {} crScB drScB).issues
      DriftType.undocumented_function "undocumented_func" = 1 := by
  have h := c6_undocumented_function {} crScB drScB "undocumented_func" funcScB
    rfl rfl rfl
  refine ⟨rfl, rfl, rfl, ?_⟩
  rw [h.1]
  rfl

/-! ### Claim C1 -/

/-- C1: For every doc-index entry never matched during compare, exactly one
`MISSING_FROM_CODE` issue named after it is emitted iff its name is a key
of neither code index and it is not an external reference
(`_is_external_reference`); and every `MISSING_FROM_CODE` issue carries
severity CRITICAL. -/
theorem c1_missing_from_code (cfg : ComparatorConfig) (cr : List ParseResult)
    (dr : List DocParseResult) (n : String) (item : DocumentedItem)
    (hd : dictLookup (index_doc_items dr) n = some item)
    (hm : n ∉ matched_docs_of cfg cr dr) :
    countIssues (compare cfg cr dr).issues DriftType.missing_from_code n
      = (if !dictContains (index_functions cr) n
            && !dictContains (index_classes cr) n
            && !is_external_reference item then 1 else 0) ∧
    ∀ i ∈ (compare cfg cr dr).issues,
      i.drift_type = DriftType.missing_from_code →
      i.severity = DriftSeverity.critical := by
  have hkeys : ((index_doc_items dr).map Prod.fst).Nodup :=
    index_doc_items_keys_nodup dr
  have hmem : (n, item) ∈ index_doc_items dr := dictLookup_mem _ _ _ hd
  constructor
  · rw [compare_issues_eq, countIssues_append, countIssues_append]
    have hfunc : countIssues
        (funcIssuesOf cfg (index_doc_items dr) (index_functions cr))
        DriftType.missing_from_code n = 0 := by
      refine countIssues_issuesOfEntries_zero _ _ _ _ ?_
      intro e he i hi hcontra
      rcases func_step_mem cfg (index_doc_items dr) e.1 e.2 i hi with h | h | h
      · rw [hcontra.1] at h
        cases h
      · rw [hcontra.1] at h
        cases h
      · have h1 := h.1
        rw [hcontra.1] at h1
        cases h1
    have hclass : countIssues
        (classIssuesOf cfg (index_doc_items dr) (index_classes cr))
        DriftType.missing_from_code n = 0 := by
      refine countIssues_issuesOfEntries_zero _ _ _ _ ?_
      intro e he i hi hcontra
      rcases class_step_mem cfg (index_doc_items dr) e.1 e.2 i hi with h | h <;>
        · rw [hcontra.1] at h
          cases h
    have hdoc : countIssues
        (docIssuesOf (index_functions cr) (index_classes cr)
          (matched_docs_of cfg cr dr) (index_doc_items dr))
        DriftType.missing_from_code n
        = countIssues (doc_step (index_functions cr) (index_classes cr)
            (matched_docs_of cfg cr dr) n item) DriftType.missing_from_code n := by
      refine countIssues_issuesOfEntries_localize _ _ _ _ item hkeys hmem ?_
      intro k b hk i hi hcontra
      exact hk ((doc_step_mem _ _ _ k b i hi).2.2 ▸ hcontra.2)
    rw [hfunc, hclass, hdoc, doc_step_count _ _ _ n item hm]
    omega
  · intro i hi hti
    rw [compare_issues_eq] at hi
    rcases List.mem_append.mp hi with hi1 | hi2
    · rcases List.mem_append.mp hi1 with hi3 | hi3
      · rcases mem_issuesOfEntries _ _ _ hi3 with ⟨e, he, hie⟩
        rcases func_step_mem cfg (index_doc_items dr) e.1 e.2 i hie with h | h | h
        · rw [hti] at h
          cases h
        · rw [hti] at h
          cases h
        · rw [hti] at h
          cases h.1
      · rcases mem_issuesOfEntries _ _ _ hi3 with ⟨e, he, hie⟩
        rcases class_step_mem cfg (index_doc_items dr) e.1 e.2 i hie with h | h <;>
          · rw [hti] at h
            cases h
    · rcases mem_issuesOfEntries _ _ _ hi2 with ⟨e, he, hie⟩
      exact (doc_step_mem _ _ _ e.1 e.2 i hie).2.1

theorem c1_witness :
    dictLookup (index_doc_items drScC) "ghost_func" = some ghostItem ∧
    "ghost_func" ∉ matched_docs_of {} crScC drScC ∧
    countIssues (compare {} crScC drScC).issues
      DriftType.missing_from_code "ghost_func" = 1 := by
  have h := c1_missing_from_code {} crScC drScC "ghost_func" ghostItem
    rfl (by decide)
  refine ⟨rfl, by decide, ?_⟩
  rw [h.1]
  rfl

/-! ### Claim C7 -/

/-- C7: The stats of every compare run report the sizes of the function,
class and doc indices, the number of distinct matched doc names (every one
of which is a doc-index key), and
`undocumented = total_functions + total_classes - matched`. -/
theorem c7_stats (cfg : ComparatorConfig) (cr : List ParseResult)
    (dr : List DocParseResult) :
    (compare cfg cr dr).stats.total_functions = dictLen (index_functions cr) ∧
    (compare cfg cr dr).stats.total_classes = dictLen (index_classes cr) ∧
    (compare cfg cr dr).stats.total_documented = dictLen (index_doc_items dr) ∧
    (compare cfg cr dr).stats.matched = (matched_docs_of cfg cr dr).length ∧
    (matched_docs_of cfg cr dr).Nodup ∧
    (∀ x ∈ matched_docs_of cfg cr dr,
      dictContains (index_doc_items dr) x = true) ∧
    (compare cfg cr dr).stats.undocumented =
      (dictLen (index_functions cr) : Int) + (dictLen (index_classes cr) : Int)
        - ((matched_docs_of cfg cr dr).length : Int) := by
  refine ⟨rfl, rfl, rfl, rfl, ?_, ?_, rfl⟩
  · rw [matched_docs_of_eq]
    exact classMatchedOf_nodup _ _ _ _
      (funcMatchedOf_nodup _ _ _ _ List.nodup_nil)
  · rw [matched_docs_of_eq]
    refine classMatchedOf_in_docs _ _ (index_doc_items_name_eq_key dr) _ _ ?_
    refine funcMatchedOf_in_docs _ _ (index_doc_items_name_eq_key dr) _ _ ?_
    intro x hx
    simp at hx

theorem c7_witness :
    (compare {} crScF drScF).stats =
      { total_functions := 2, total_classes := 1, total_documented := 2,
        matched := 2, undocumented := 1 } ∧
    (matched_docs_of {} crScF drScF).Nodup :=
  ⟨by decide, (c7_stats {} crScF drScF).2.2.2.2.1⟩

/-! ### Claim C10 -/

/-- C10: For every compare run, `matched ≤ total_documented`,
`matched ≤ total_functions + total_classes`, and therefore
`undocumented ≥ 0`. -/
theorem c10_stats_invariants (cfg : ComparatorConfig) (cr : List ParseResult)
    (dr : List DocParseResult) :
    (compare cfg cr dr).stats.matched ≤ (compare cfg cr dr).stats.total_documented ∧
    (compare cfg cr dr).stats.matched ≤
      (compare cfg cr dr).stats.total_functions
        + (compare cfg cr dr).stats.total_classes ∧
    0 ≤ (compare cfg cr dr).stats.undocumented := by
  have hnodup : (matched_docs_of cfg cr dr).Nodup := by
    rw [matched_docs_of_eq]
    exact classMatchedOf_nodup _ _ _ _
      (funcMatchedOf_nodup _ _ _ _ List.nodup_nil)
  have hsub : ∀ x ∈ matched_docs_of cfg cr dr,
      x ∈ dictKeys (index_doc_items dr) := by
    intro x hx
    refine dictContains_mem_keys _ _ ?_
    rw [matched_docs_of_eq] at hx
    refine classMatchedOf_in_docs _ _ (index_doc_items_name_eq_key dr) _ _
      (funcMatchedOf_in_docs _ _ (index_doc_items_name_eq_key dr) _ _
        (by intro y hy; simp at hy)) x hx
  have h1 : (matched_docs_of cfg cr dr).length ≤ dictLen (index_doc_items dr) := by
    have := nodup_subset_length_le _ _ hnodup hsub
    simpa [dictKeys, dictLen] using this
  have h2 : (matched_docs_of cfg cr dr).length ≤
      dictLen (index_functions cr) + dictLen (index_classes cr) := by
    rw [matched_docs_of_eq]
    have hc := classMatchedOf_length {} (index_doc_items dr) (index_classes cr)
      (funcMatchedOf {} (index_doc_items dr) (index_functions cr) [])
    have hcc := classMatchedOf_length cfg (index_doc_items dr) (index_classes cr)
      (funcMatchedOf cfg (index_doc_items dr) (index_functions cr) [])
    have hff := funcMatchedOf_length cfg (index_doc_items dr) (index_functions cr) []
    simp only [List.length_nil] at hff
    unfold dictLen
    omega
  refine ⟨h1, h2, ?_⟩
  show (0 : Int) ≤ (dictLen (index_functions cr) : Int)
      + (dictLen (index_classes cr) : Int)
      - ((matched_docs_of cfg cr dr).length : Int)
  omega

end DriftDetector
